import Mathlib

/-!
Verification development for the zwidget toolkit (zuudevs/zwidget).

The C++ sources are shallowly embedded: `float` coordinates are modelled by
`ℚ`, pointers by explicit ids or tree structure, and the closed
`std::variant` event payload by an inductive type.  Each definition mirrors
one function of the sources (file and member named in its doc comment).
-/

namespace ZWidget

/-! ## Geometry: `unit/point.hpp`, `unit/size.hpp`, `unit/rect.hpp` -/

/-- Mirrors `basic_point<float>` (`unit/point.hpp`): a 2D point. -/
structure Pointf where
  x : ℚ
  y : ℚ
deriving DecidableEq, Repr

/-- Componentwise subtraction, `basic_point::operator-`. -/
def Pointf.sub (a b : Pointf) : Pointf := ⟨a.x - b.x, a.y - b.y⟩

/-- Mirrors `basic_size<float>` (`unit/size.hpp`): width and height. -/
structure Sizef where
  w : ℚ
  h : ℚ
deriving DecidableEq, Repr

/-- Mirrors `basic_rect<float,float>` (`unit/rect.hpp`): origin plus size. -/
structure Rectf where
  pos : Pointf
  size : Sizef
deriving DecidableEq, Repr

/-- Mirrors `basic_rect::left` -/
def Rectf.left (r : Rectf) : ℚ := r.pos.x

/-- Mirrors `basic_rect::top` -/
def Rectf.top (r : Rectf) : ℚ := r.pos.y

/-- Mirrors `basic_rect::right` = `pos.x + size.w` -/
def Rectf.right (r : Rectf) : ℚ := r.pos.x + r.size.w

/-- Mirrors `basic_rect::bottom` = `pos.y + size.h` -/
def Rectf.bottom (r : Rectf) : ℚ := r.pos.y + r.size.h

/-- Mirrors `basic_rect::contains` (`unit/rect.hpp` lines 120-124):
half-open intervals `[left,right)` and `[top,bottom)`. -/
def Rectf.contains (r : Rectf) (p : Pointf) : Bool :=
  decide (r.left ≤ p.x) && decide (p.x < r.right) &&
  decide (r.top ≤ p.y) && decide (p.y < r.bottom)

/-! ## Event payloads: `unit/event/window.hpp`, `mouse.hpp`, `keyboard.hpp` -/

/-- Mirrors `window_state` enum (`unit/event/window.hpp`). -/
inductive window_state where
  | none | quit | close | minimize | maximize | resize
  | restore | hide | show | focus_gained | focus_lost | moved
deriving DecidableEq, Repr

/-- Mirrors `mouse_state` enum (`unit/event/mouse.hpp`). -/
inductive mouse_state where
  | none | move | enter | leave | press | release | double_click | scroll
deriving DecidableEq, Repr

/-- Mirrors `mouse_button` enum (`unit/event/mouse.hpp`). -/
inductive mouse_button where
  | none | left | middle | right | x1 | x2
deriving DecidableEq, Repr

/-- Mirrors `keyboard_state` enum (`unit/event/keyboard.hpp`). -/
inductive keyboard_state where
  | none | press | release | char_input
deriving DecidableEq, Repr

/-- Mirrors `key_modifier` bitmask (`unit/event/keymod.hpp`), abstracted to its
underlying integer value. -/
structure key_modifier where
  bits : Nat
deriving DecidableEq, Repr

/-- Mirrors `WindowEvent` (`unit/event/window.hpp`): size uses integer pixels. -/
structure WindowEvent where
  size : Sizef
  state : window_state
deriving DecidableEq, Repr

/-- Mirrors `MouseEvent` (`unit/event/mouse.hpp`). -/
structure MouseEvent where
  position : Pointf
  scroll_delta : Int
  state : mouse_state
  button : mouse_button
  modifiers : key_modifier
deriving DecidableEq, Repr

/-- Mirrors `KeyboardEvent` (`unit/event/keyboard.hpp`); `wchar_t` as `Nat`. -/
structure KeyboardEvent where
  key_code : Nat
  scan_code : Nat
  character : Nat
  state : keyboard_state
  modifiers : key_modifier
  is_repeat : Bool
deriving DecidableEq, Repr

/-! ## The `Event` variant: `unit/event.hpp` -/

/-- Mirrors `event_type` enum (`unit/event.hpp` lines 25-30). -/
inductive event_type where
  | none | window | mouse | keyboard
deriving DecidableEq, Repr

/-- Mirrors `Event::event_variant = std::variant<EmptyEvent, WindowEvent,
MouseEvent, KeyboardEvent>` (`unit/event.hpp` lines 39-43). -/
inductive EventVariant where
  | empty : EventVariant
  | window : WindowEvent → EventVariant
  | mouse : MouseEvent → EventVariant
  | keyboard : KeyboardEvent → EventVariant
deriving DecidableEq, Repr

/-- Mirrors `Event` (`unit/event.hpp`): payload variant, opaque platform handle
(`HWND`, modelled as a bare number), and the type tag. -/
structure Event where
  data : EventVariant
  handle : Nat
  type_ : event_type
deriving DecidableEq, Repr

/-- Default constructor `Event()` : empty payload, tag `none`. -/
def Event.mkEmpty : Event := ⟨.empty, 0, .none⟩

/-- Constructor `Event(WindowEvent, HWND)` (`unit/event.hpp` lines 60-61). -/
def Event.ofWindow (e : WindowEvent) (h : Nat := 0) : Event :=
  ⟨.window e, h, .window⟩

/-- Constructor `Event(MouseEvent, HWND)` (`unit/event.hpp` lines 63-64). -/
def Event.ofMouse (e : MouseEvent) (h : Nat := 0) : Event :=
  ⟨.mouse e, h, .mouse⟩

/-- Constructor `Event(KeyboardEvent, HWND)` (`unit/event.hpp` lines 66-67). -/
def Event.ofKeyboard (e : KeyboardEvent) (h : Nat := 0) : Event :=
  ⟨.keyboard e, h, .keyboard⟩

/-- Mirrors `Event::type()` -/
def Event.type (e : Event) : event_type := e.type_

/-- Mirrors `Event::is_window()` -/
def Event.is_window (e : Event) : Bool := e.type_ = event_type.window

/-- Mirrors `Event::is_mouse()` -/
def Event.is_mouse (e : Event) : Bool := e.type_ = event_type.mouse

/-- Mirrors `Event::is_keyboard()` -/
def Event.is_keyboard (e : Event) : Bool := e.type_ = event_type.keyboard

/-- Mirrors `Event::is_none()` -/
def Event.is_none (e : Event) : Bool := e.type_ = event_type.none

/-- Mirrors `Event::get<WindowEvent>()` : `std::get` on the variant, which throws
`std::bad_variant_access` on a tag mismatch.  The throwing outcome is the
`Except.error` case. -/
def Event.getWindow (e : Event) : Except Unit WindowEvent :=
  match e.data with
  | .window w => .ok w
  | _ => .error ()

/-- Mirrors `Event::get<MouseEvent>()`. -/
def Event.getMouse (e : Event) : Except Unit MouseEvent :=
  match e.data with
  | .mouse m => .ok m
  | _ => .error ()

/-- Mirrors `Event::get<KeyboardEvent>()`. -/
def Event.getKeyboard (e : Event) : Except Unit KeyboardEvent :=
  match e.data with
  | .keyboard k => .ok k
  | _ => .error ()

/-- Mirrors `Event::get_if<WindowEvent>()` : `std::get_if`, `nullptr` on mismatch
becomes `Option.none`. -/
def Event.getIfWindow (e : Event) : Option WindowEvent :=
  match e.data with
  | .window w => some w
  | _ => none

/-- Mirrors `Event::get_if<MouseEvent>()`. -/
def Event.getIfMouse (e : Event) : Option MouseEvent :=
  match e.data with
  | .mouse m => some m
  | _ => none

/-- Mirrors `Event::get_if<KeyboardEvent>()`. -/
def Event.getIfKeyboard (e : Event) : Option KeyboardEvent :=
  match e.data with
  | .keyboard k => some k
  | _ => none

/-- Mirrors `Event::operator==` (`unit/event.hpp` lines 259-261):
`type_ == o.type_ && data_ == o.data_`; the handle is not compared. -/
def Event.eq (e o : Event) : Bool :=
  decide (e.type_ = o.type_) && decide (e.data = o.data)

/-- Mirrors `Event::holds<WindowEvent>()` : `std::holds_alternative`. -/
def Event.holdsWindow (e : Event) : Bool :=
  match e.data with
  | .window _ => true
  | _ => false

/-- Mirrors `Event::holds<MouseEvent>()`. -/
def Event.holdsMouse (e : Event) : Bool :=
  match e.data with
  | .mouse _ => true
  | _ => false

/-- Mirrors `Event::holds<KeyboardEvent>()`. -/
def Event.holdsKeyboard (e : Event) : Bool :=
  match e.data with
  | .keyboard _ => true
  | _ => false

/-! ## Event dispatcher: `core/event_dispatcher.hpp`

Listener callbacks are pure functions `Event → Bool` in the model (the C++
`std::function` may have side effects on outside state, which are not part
of the dispatcher state these claims are about).  Because invocation order
is what the claims specify, `dispatch_event` returns the trace of listeners
invoked, in order, rather than `Unit`. -/

/-- Mirrors `PrioritizedListener` (`core/event_dispatcher.hpp` lines 27-34). -/
structure PrioritizedListener where
  callback : Event → Bool
  priority : Int

/-- Mirrors the `EventDispatcher` state (`core/event_dispatcher.hpp` lines
39-56).  The `std::queue` is a back-pushed, front-popped list; the
`std::unordered_map` of per-type listeners is a total function that yields
`[]` for absent keys (absent and empty entries behave identically in
`dispatch_event`). -/
structure EventDispatcher where
  event_queue : List Event
  listeners : event_type → List PrioritizedListener
  global_listeners : List PrioritizedListener
  enabled : Bool
  events_processed : Nat
  events_dropped : Nat
  max_queue_size : Nat

/-- The default-constructed dispatcher: empty queue and listener sets,
`enabled_ = true`, zero counters, `max_queue_size_ = 1000`. -/
def EventDispatcher.init : EventDispatcher :=
  ⟨[], fun _ => [], [], true, 0, 0, 1000⟩

/-- Mirrors `EventDispatcher::push_event` (`core/event_dispatcher.hpp` lines
63-69): drop and count when the queue is at or over capacity, else enqueue
at the back.  Note the C++ does not consult `enabled_` here. -/
def EventDispatcher.push_event (d : EventDispatcher) (e : Event) : EventDispatcher :=
  if d.event_queue.length ≥ d.max_queue_size then
    { d with events_dropped := d.events_dropped + 1 }
  else
    { d with event_queue := d.event_queue ++ [e] }

/-- The listener loops inside `dispatch_event` (lines 101-105 and 110-114):
invoke callbacks in list order and stop at the first returning `true`.
Returns the listeners invoked, in order, and whether one consumed the
event. -/
def runListeners (e : Event) : List PrioritizedListener → List PrioritizedListener × Bool
  | [] => ([], false)
  | l :: rest =>
    if l.callback e then ([l], true)
    else
      let r := runListeners e rest
      (l :: r.1, r.2)

/-- Mirrors `EventDispatcher::dispatch_event` (lines 97-116): nothing when
disabled; otherwise global listeners first, and only when no global
listener consumed the event the listeners registered for `event.type()`.
The result is the invocation trace. -/
def EventDispatcher.dispatch_event (d : EventDispatcher) (e : Event) :
    List PrioritizedListener :=
  if d.enabled = false then []
  else
    let g := runListeners e d.global_listeners
    if g.2 then g.1
    else g.1 ++ (runListeners e (d.listeners e.type)).1

/-- The `while` loop of `process_events` (lines 85-91): pop the front,
dispatch it, bump `events_processed_`, repeat.  Returns the final counter
value and the popped events in dispatch order. -/
def processLoop : List Event → Nat → Nat × List Event
  | [], n => (n, [])
  | e :: rest, n =>
    let r := processLoop rest (n + 1)
    (r.1, e :: r.2)

/-- Mirrors `EventDispatcher::process_events` (lines 82-92).  Callbacks are
pure in the model, so dispatching inside the loop cannot change the
dispatcher; the second component records the events dispatched, in order. -/
def EventDispatcher.process_events (d : EventDispatcher) : EventDispatcher × List Event :=
  if d.enabled = false then (d, [])
  else
    let r := processLoop d.event_queue d.events_processed
    ({ d with event_queue := [], events_processed := r.1 }, r.2)

/-- Insertion into a list already sorted by descending priority.  The C++
`add_listener` does `push_back` followed by `std::sort` with comparator
`a.priority > b.priority`; on a list that the same re-sort has already
ordered this yields a descending-priority list, which is what insertion
produces.  (Among equal priorities `std::sort` is unstable, so the claims
never depend on that order.) -/
def insertByPriority (l : PrioritizedListener) :
    List PrioritizedListener → List PrioritizedListener
  | [] => [l]
  | x :: xs => if l.priority > x.priority then l :: x :: xs else x :: insertByPriority l xs

/-- Mirrors `EventDispatcher::add_listener` (lines 121-128). -/
def EventDispatcher.add_listener (d : EventDispatcher) (ty : event_type)
    (cb : Event → Bool) (priority : Int) : EventDispatcher :=
  { d with listeners := fun t =>
      if t = ty then insertByPriority ⟨cb, priority⟩ (d.listeners ty) else d.listeners t }

/-- Mirrors `EventDispatcher::add_global_listener` (lines 133-139). -/
def EventDispatcher.add_global_listener (d : EventDispatcher)
    (cb : Event → Bool) (priority : Int) : EventDispatcher :=
  { d with global_listeners := insertByPriority ⟨cb, priority⟩ d.global_listeners }

/-- Executable check that priorities are non-increasing along a list. -/
def sortedDescB : List PrioritizedListener → Bool
  | [] => true
  | [_] => true
  | a :: b :: rest => decide (b.priority ≤ a.priority) && sortedDescB (b :: rest)

/-- Sortedness by descending priority, the invariant `add_listener`
maintains on every listener list. -/
def SortedDesc (ls : List PrioritizedListener) : Prop :=
  sortedDescB ls = true

instance : DecidablePred SortedDesc := fun ls =>
  inferInstanceAs (Decidable (sortedDescB ls = true))

/-- Specification-side description of one listener pass, written from the
claim: the listeners invoked are those before the first consumer plus that
consumer itself. -/
def invokedSpec (e : Event) (ls : List PrioritizedListener) : List PrioritizedListener :=
  ls.takeWhile (fun l => !l.callback e) ++ (ls.dropWhile (fun l => !l.callback e)).take 1

/-! ## Alignment: `unit/align.hpp` -/

/-- Mirrors the `orientations` enum (`unit/align.hpp` lines 21-25). -/
inductive orientations where
  | none | vertical | horizontal
deriving DecidableEq, Repr

/-- Mirrors the `aligns` enum (`unit/align.hpp` lines 30-34); `end` is a
Lean keyword, hence `end_`. -/
inductive aligns where
  | start | center | end_
deriving DecidableEq, Repr

/-- Mirrors the `Align` descriptor (`unit/align.hpp` lines 40-44). -/
structure Align where
  orientation : orientations
  main_axis : aligns
  cross_axis : aligns
deriving DecidableEq, Repr

/-- Default `Align{}`: orientation `none`, both axes `start`. -/
def Align.init : Align := ⟨.none, .start, .start⟩

/-! ## The widget tree: `core/widget.hpp`

One `Widget` object owns its children, so the class is embedded as a tree;
the raw parent back pointer becomes the position of a node below the root.
The data members that the claims read or write are kept; colors and the
`enabled`/`focused`/`pressed` bits play no role in any claim and are
omitted.  The virtual per-state leaf handlers (`on_mouse_move`,
`on_mouse_press`, ..., `on_key_release`) all ignore their arguments and
return a constant in the base class (`false`); an override may return
either constant, so each node carries the returned values as `HookFlags`
(all-`false` = the base-class defaults).  `on_mouse_enter`/`on_mouse_leave`
keep their base-class bodies, which are what claim C7 describes. -/

/-- Return values of the overridable leaf event hooks
(`core/widget.hpp` lines 324-326 and 335-336); `false` everywhere is the
base-class default. -/
structure HookFlags where
  on_mouse_move : Bool
  on_mouse_press : Bool
  on_mouse_release : Bool
  on_key_press : Bool
  on_key_release : Bool
deriving DecidableEq, Repr

/-- All-default hooks: every leaf handler returns `false`. -/
def HookFlags.init : HookFlags := ⟨false, false, false, false, false⟩

/-- The non-recursive data members of `Widget`
(`core/widget.hpp` lines 61-75). -/
structure WidgetData where
  bounds : Rectf
  visible : Bool
  dirty : Bool
  hovered : Bool
  min_size : Sizef
  preferred_size : Sizef
  max_size : Sizef
  alignment : Align
  hooks : HookFlags
deriving DecidableEq, Repr

/-- Mirrors the `Widget` class: its data members plus the owned
`children_` vector, in insertion order. -/
inductive Widget where
  | mk (data : WidgetData) (children : List Widget)

/-- Accessor for the data members. -/
def Widget.data : Widget → WidgetData
  | .mk d _ => d

/-- Mirrors `Widget::children()`. -/
def Widget.children : Widget → List Widget
  | .mk _ c => c

/-- Mirrors `Widget::is_visible()`. -/
def Widget.is_visible (w : Widget) : Bool := w.data.visible

/-- Mirrors `Widget::is_dirty()`. -/
def Widget.is_dirty (w : Widget) : Bool := w.data.dirty

/-- Mirrors `Widget::contains` (`core/widget.hpp` lines 246-248). -/
def Widget.containsPt (w : Widget) (p : Pointf) : Bool :=
  w.data.bounds.contains p

mutual
/-- Mirrors `Widget::hit_test` (`core/widget.hpp` lines 253-266): `none`
when invisible or the point is outside the bounds, else the first hit among
the children tried in reverse insertion order with the point translated by
this widget's position, else the widget itself. -/
def Widget.hit_test : Widget → Pointf → Option Widget
  | .mk d cs, p =>
    if !d.visible || !(d.bounds.contains p) then none
    else
      match hitTestChildren cs (p.sub d.bounds.pos) with
      | some hit => some hit
      | none => some (.mk d cs)
/-- The `rbegin()`-to-`rend()` loop of `hit_test`: the elements later in
the list (drawn on top) are tried before the earlier ones. -/
def hitTestChildren : List Widget → Pointf → Option Widget
  | [], _ => none
  | c :: rest, p =>
    match hitTestChildren rest p with
    | some hit => some hit
    | none => c.hit_test p
end

mutual
/-- The set of widgets reachable from the root through visible nodes only:
exactly the candidates `hit_test` may return.  A widget below an invisible
node is absent even if itself visible. -/
def visibleMembers : Widget → List Widget
  | .mk d cs =>
    if d.visible then .mk d cs :: visibleMembersList cs else []
def visibleMembersList : List Widget → List Widget
  | [] => []
  | c :: rest => visibleMembers c ++ visibleMembersList rest
end

/-- First non-`none` entry of a list of options; formalizes the claim's
"returns the first non-null child result". -/
def firstSome {α : Type} : List (Option α) → Option α
  | [] => none
  | o :: os =>
    match o with
    | some a => some a
    | none => firstSome os

/-! Paths: a widget in the tree is addressed by the list of child indices
from the root, the functional stand-in for following parent pointers. -/

mutual
/-- Widget lookup along a child-index path; `none` when an index is out of
range. -/
def Widget.getNode : Widget → List Nat → Option Widget
  | w, [] => some w
  | .mk _ cs, i :: rest => getNodeChildren cs i rest
def getNodeChildren : List Widget → Nat → List Nat → Option Widget
  | [], _, _ => none
  | c :: _, 0, rest => c.getNode rest
  | _ :: cs, n + 1, rest => getNodeChildren cs n rest
end

mutual
/-- Mirrors `Widget::mark_dirty` (`core/widget.hpp` lines 228-233) seen
from the root: the C++ sets the widget's dirty bit and walks the parent
pointers doing the same, so the affected widgets are exactly those on the
path from the root down to the marked widget. -/
def Widget.mark_dirty : Widget → List Nat → Widget
  | .mk d cs, [] => .mk { d with dirty := true } cs
  | .mk d cs, i :: rest => .mk { d with dirty := true } (markDirtyChildren cs i rest)
def markDirtyChildren : List Widget → Nat → List Nat → List Widget
  | [], _, _ => []
  | c :: cs, 0, rest => c.mark_dirty rest :: cs
  | c :: cs, n + 1, rest => c :: markDirtyChildren cs n rest
end

mutual
/-- Along-path visibility: every widget from the root down to (and
including) the addressed one has `visible = true`; these are precisely the
widgets a `render` pass visits. -/
def allVisibleAlong : Widget → List Nat → Bool
  | .mk d _, [] => d.visible
  | .mk d cs, i :: rest => d.visible && allVisibleChildren cs i rest
def allVisibleChildren : List Widget → Nat → List Nat → Bool
  | [], _, _ => false
  | c :: _, 0, rest => allVisibleAlong c rest
  | _ :: cs, n + 1, rest => allVisibleChildren cs n rest
end

mutual
/-- Mirrors `Widget::render` (`core/widget.hpp` lines 344-356): an
invisible widget returns at once (its subtree untouched, dirty bit kept); a
visible one draws itself (drawing does not change widget state and is
dropped), renders its children in insertion order, then clears its own
dirty flag. -/
def Widget.render : Widget → Widget
  | .mk d cs =>
    if !d.visible then .mk d cs
    else .mk { d with dirty := false } (renderChildren cs)
def renderChildren : List Widget → List Widget
  | [] => []
  | c :: rest => c.render :: renderChildren rest
end

/-! ## Event routing: `Widget::on_event` and the default handlers

`on_mouse_event` computes a local position (`event.position -
absolute_position()`), but every state hook the base class declares ignores
the position; what an override returns is the node's `HookFlags` entry, so
the position argument drops out of the model.  `set_state` (used by the
default `on_mouse_enter`/`on_mouse_leave`) also calls `mark_dirty`; its
effect on the widget itself is `dirty := true` (the upward propagation
along parent pointers is the subject of `Widget.mark_dirty` above and is
orthogonal to the consumption protocol claim C7 describes). -/

/-- Mirrors `Widget::on_mouse_event` (`core/widget.hpp` lines 295-312)
together with the default `on_mouse_enter` (sets `hovered`, returns
`false`) and `on_mouse_leave` (clears `hovered`, returns `false`), lines
327-334; the remaining states return the (possibly overridden) hook
result without touching the widget. -/
def Widget.on_mouse_event : Widget → MouseEvent → Widget × Bool
  | .mk d cs, m =>
    match m.state with
    | .move => (.mk d cs, d.hooks.on_mouse_move)
    | .press => (.mk d cs, d.hooks.on_mouse_press)
    | .release => (.mk d cs, d.hooks.on_mouse_release)
    | .enter => (.mk { d with hovered := true, dirty := true } cs, false)
    | .leave => (.mk { d with hovered := false, dirty := true } cs, false)
    | _ => (.mk d cs, false)

/-- Mirrors `Widget::on_keyboard_event` (`core/widget.hpp` lines 314-321)
with the default `on_key_press`/`on_key_release` hooks. -/
def Widget.on_keyboard_event : Widget → KeyboardEvent → Widget × Bool
  | .mk d cs, k =>
    match k.state with
    | .press => (.mk d cs, d.hooks.on_key_press)
    | .release => (.mk d cs, d.hooks.on_key_release)
    | _ => (.mk d cs, false)

mutual
/-- Mirrors `Widget::on_event` (`core/widget.hpp` lines 273-293): the
children are offered the event first, in insertion order; if one consumes
it the widget's own handling is skipped; otherwise the event is dispatched
by kind (note the C++ `else if`: a mouse-tagged event whose payload is not
a `MouseEvent` falls through to `return false`). -/
def Widget.on_event : Widget → Event → Widget × Bool
  | .mk d cs, e =>
    let r := onEventChildren cs e
    if r.2 then (.mk d r.1, true)
    else if e.is_mouse then
      match e.getIfMouse with
      | some m => Widget.on_mouse_event (.mk d r.1) m
      | none => (.mk d r.1, false)
    else if e.is_keyboard then
      match e.getIfKeyboard with
      | some k => Widget.on_keyboard_event (.mk d r.1) k
      | none => (.mk d r.1, false)
    else (.mk d r.1, false)
/-- The children loop of `on_event`: stop at the first child that consumes
the event; children after it are not offered the event at all. -/
def onEventChildren : List Widget → Event → List Widget × Bool
  | [], _ => ([], false)
  | c :: rest, e =>
    let rc := c.on_event e
    if rc.2 then (rc.1 :: rest, true)
    else
      let rs := onEventChildren rest e
      (rc.1 :: rs.1, rs.2)
end

/-! ## Box layouts: `widgets/layout.hpp`

`HBox::layout`/`VBox::layout` read the container's size, spacing, padding
and `LayoutAlign`, and write each visible child's bounds via `set_bounds`;
invisible children are skipped (their bounds stay as they were).  The model
returns the assigned rectangle per child (`none` for a skipped child).
The recursive `child->layout()` call at the end of each iteration lays out
the grandchildren and cannot change the bounds this pass assigns, so it is
not part of the returned data. -/

/-- Mirrors the `LayoutAlign` enum (`widgets/layout.hpp` lines 19-24);
`end_` again stands for `end`. -/
inductive LayoutAlign where
  | start | center | end_ | stretch
deriving DecidableEq, Repr

/-- Container state a box layout reads: own size (`width()`/`height()`),
`spacing_`, `padding_` and `alignment_`. -/
structure BoxSpec where
  width : ℚ
  height : ℚ
  spacing : ℚ
  padding : ℚ
  alignment : LayoutAlign
deriving DecidableEq, Repr

/-- Mirrors `std::clamp(v, lo, hi)`. -/
def clampQ (v lo hi : ℚ) : ℚ :=
  if v < lo then lo else if hi < v then hi else v

/-- The stretch test of `HBox::layout` (lines 88-89 and 115-116): the
child's alignment has `orientation == horizontal` and
`main_axis == aligns::end`. -/
def isStretchH (c : Widget) : Bool :=
  c.data.alignment.orientation = orientations.horizontal &&
  c.data.alignment.main_axis = aligns.end_

/-- The stretch test of `VBox::layout` (lines 183-184 and 210-211). -/
def isStretchV (c : Widget) : Bool :=
  c.data.alignment.orientation = orientations.vertical &&
  c.data.alignment.main_axis = aligns.end_

/-- First accumulation loop of `HBox::layout` (lines 81-94):
`total_preferred_width`, the summed preferred widths of the visible
non-stretch children. -/
def total_preferred_width (cs : List Widget) : ℚ :=
  ((cs.filter fun c => c.data.visible && !isStretchH c).map
    fun c => c.data.preferred_size.w).sum

/-- First accumulation loop of `VBox::layout` (lines 176-189). -/
def total_preferred_height (cs : List Widget) : ℚ :=
  ((cs.filter fun c => c.data.visible && !isStretchV c).map
    fun c => c.data.preferred_size.h).sum

/-- Stretch-child count of `HBox::layout`. -/
def stretch_countH (cs : List Widget) : Nat :=
  (cs.filter fun c => c.data.visible && isStretchH c).length

/-- Stretch-child count of `VBox::layout`. -/
def stretch_countV (cs : List Widget) : Nat :=
  (cs.filter fun c => c.data.visible && isStretchV c).length

/-- Visible-children count (lines 97-100 resp. 192-195). -/
def visible_count (cs : List Widget) : Nat :=
  (cs.filter fun c => c.data.visible).length

/-- Mirrors `total_spacing = spacing_ * std::max(0, (int)visible_count - 1)`
(line 102 resp. 197). -/
def total_spacingQ (spacing : ℚ) (cs : List Widget) : ℚ :=
  spacing * ((max 0 ((visible_count cs : Int) - 1) : Int) : ℚ)

/-- Mirrors `available_width` (line 103): container width minus twice the
padding, the inter-child spacing, and the summed non-stretch preferred
widths. -/
def available_width (spec : BoxSpec) (cs : List Widget) : ℚ :=
  spec.width - spec.padding * 2 - total_spacingQ spec.spacing cs - total_preferred_width cs

/-- Mirrors `available_height` (line 198). -/
def available_height (spec : BoxSpec) (cs : List Widget) : ℚ :=
  spec.height - spec.padding * 2 - total_spacingQ spec.spacing cs - total_preferred_height cs

/-- Mirrors `stretch_width` (line 106): the even share of the leftover, `0`
when there is no stretch child. -/
def stretch_width (spec : BoxSpec) (cs : List Widget) : ℚ :=
  if stretch_countH cs > 0 then available_width spec cs / (stretch_countH cs : ℚ) else 0

/-- Mirrors `stretch_height` (line 201). -/
def stretch_height (spec : BoxSpec) (cs : List Widget) : ℚ :=
  if stretch_countV cs > 0 then available_height spec cs / (stretch_countV cs : ℚ) else 0

/-- Cross-axis placement of one `HBox` child (the `switch (alignment_)`
at lines 129-153): yields `(y, child_height)`. -/
def hboxCross (spec : BoxSpec) (c : Widget) : ℚ × ℚ :=
  match spec.alignment with
  | .start => (spec.padding, c.data.preferred_size.h)
  | .center => ((spec.height - c.data.preferred_size.h) / 2, c.data.preferred_size.h)
  | .end_ => (spec.height - spec.padding - c.data.preferred_size.h, c.data.preferred_size.h)
  | .stretch => (spec.padding, spec.height - spec.padding * 2)

/-- Cross-axis placement of one `VBox` child (lines 224-248):
yields `(x, child_width)`. -/
def vboxCross (spec : BoxSpec) (c : Widget) : ℚ × ℚ :=
  match spec.alignment with
  | .start => (spec.padding, c.data.preferred_size.w)
  | .center => ((spec.width - c.data.preferred_size.w) / 2, c.data.preferred_size.w)
  | .end_ => (spec.width - spec.padding - c.data.preferred_size.w, c.data.preferred_size.w)
  | .stretch => (spec.padding, spec.width - spec.padding * 2)

/-- Positioning loop of `HBox::layout` (lines 109-162), with `x` the
running cursor (starting at `padding_`) and `sw` the precomputed
`stretch_width`:  a visible child's width is `max(stretch_width, min)` when
it is a stretch child, else its preferred width, then clamped to
`[min, max]`; after placing a child the cursor advances by its width plus
the spacing. -/
def hboxPlace (spec : BoxSpec) (sw : ℚ) : List Widget → ℚ → List (Option Rectf)
  | [], _ => []
  | c :: rest, x =>
    if !c.data.visible then none :: hboxPlace spec sw rest x
    else
      let cw0 := if isStretchH c then max sw c.data.min_size.w else c.data.preferred_size.w
      let cw := clampQ cw0 c.data.min_size.w c.data.max_size.w
      let cr := hboxCross spec c
      some ⟨⟨x, cr.1⟩, ⟨cw, cr.2⟩⟩ :: hboxPlace spec sw rest (x + cw + spec.spacing)

/-- Positioning loop of `VBox::layout` (lines 204-257). -/
def vboxPlace (spec : BoxSpec) (sh : ℚ) : List Widget → ℚ → List (Option Rectf)
  | [], _ => []
  | c :: rest, y =>
    if !c.data.visible then none :: vboxPlace spec sh rest y
    else
      let ch0 := if isStretchV c then max sh c.data.min_size.h else c.data.preferred_size.h
      let ch := clampQ ch0 c.data.min_size.h c.data.max_size.h
      let cr := vboxCross spec c
      some ⟨⟨cr.1, y⟩, ⟨cr.2, ch⟩⟩ :: vboxPlace spec sh rest (y + ch + spec.spacing)

/-- Mirrors `HBox::layout` (`widgets/layout.hpp` lines 78-163): the
rectangle assigned to each child, `none` for the skipped invisible ones. -/
def HBox.layout (spec : BoxSpec) (cs : List Widget) : List (Option Rectf) :=
  if cs.isEmpty then []
  else hboxPlace spec (stretch_width spec cs) cs spec.padding

/-- Mirrors `VBox::layout` (`widgets/layout.hpp` lines 173-258). -/
def VBox.layout (spec : BoxSpec) (cs : List Widget) : List (Option Rectf) :=
  if cs.isEmpty then []
  else vboxPlace spec (stretch_height spec cs) cs spec.padding

/-- Specification-side per-child main-axis size for `HBox`, written from
the claim: a stretch child gets `max(share, min)` clamped, a non-stretch
child its preferred width clamped. -/
def hboxWidthSpec (share : ℚ) (c : Widget) : ℚ :=
  if isStretchH c then clampQ (max share c.data.min_size.w) c.data.min_size.w c.data.max_size.w
  else clampQ c.data.preferred_size.w c.data.min_size.w c.data.max_size.w

/-- Specification-side per-child main-axis size for `VBox`. -/
def vboxHeightSpec (share : ℚ) (c : Widget) : ℚ :=
  if isStretchV c then clampQ (max share c.data.min_size.h) c.data.min_size.h c.data.max_size.h
  else clampQ c.data.preferred_size.h c.data.min_size.h c.data.max_size.h

/-- Specification-side sequential placement, written from the claim:
starting at `padding`, each child sits at the cursor and advances it by the
child's main-axis size plus the spacing. -/
def seqPositions (spacing : ℚ) : ℚ → List ℚ → List ℚ
  | _, [] => []
  | x, w :: ws => x :: seqPositions spacing (x + w + spacing) ws

/-! ## Parent/child links: `Widget::add_child` / `Widget::remove_child`

These two members mutate raw pointers (`parent_`) and owning vectors
(`children_`) across objects, so they are embedded over an explicit object
heap: widgets are ids, the heap maps each id to its link fields.  The
`WidgetPtr` argument of `add_child` becomes `Option Nat` (`none` =
null).  `mark_dirty` walks the parent chain; the walk carries explicit fuel
because an arbitrary heap may have a parent cycle (the C++ relies on
acyclicity; any fuel at least the chain length gives the C++ result, and
the walk touches only dirty bits either way). -/

/-- Link fields of one heap widget: the non-owning parent back pointer, the
owned children (by id, insertion order), and the dirty bit that
`mark_dirty` sets. -/
structure WObj where
  parent : Option Nat
  children : List Nat
  dirty : Bool
deriving DecidableEq, Repr

/-- The object heap: widget id to link fields. -/
def Heap : Type := Nat → WObj

/-- Heap update at one id. -/
def updateHeap (h : Heap) (i : Nat) (o : WObj) : Heap :=
  fun j => if j = i then o else h j

/-- Mirrors `Widget::mark_dirty` (`core/widget.hpp` lines 228-233) on the
heap: set the bit, then recurse on the parent; `fuel` bounds the walk. -/
def markDirtyHeap : Heap → Nat → Nat → Heap
  | h, 0, _ => h
  | h, fuel + 1, i =>
    let h1 := updateHeap h i { h i with dirty := true }
    match (h i).parent with
    | some p => markDirtyHeap h1 fuel p
    | none => h1

/-- Mirrors `Widget::add_child` (`core/widget.hpp` lines 85-91): a null
child or the widget itself is ignored; otherwise the child's parent pointer
is set to `w`, the child is appended to `w`'s list, and `w` is marked
dirty. -/
def add_child (h : Heap) (fuel : Nat) (w : Nat) (c : Option Nat) : Heap :=
  match c with
  | none => h
  | some c' =>
    if c' = w then h
    else
      let h1 := updateHeap h c' { h c' with parent := some w }
      let h2 := updateHeap h1 w { h1 w with children := (h1 w).children ++ [c'] }
      markDirtyHeap h2 fuel w

/-- Mirrors `Widget::remove_child` (`core/widget.hpp` lines 96-105): when
some child equals the pointer, the first such entry is erased, that child's
parent pointer is nulled, and `w` is marked dirty; otherwise nothing
changes. -/
def remove_child (h : Heap) (fuel : Nat) (w : Nat) (c : Nat) : Heap :=
  if c ∈ (h w).children then
    let h1 := updateHeap h c { h c with parent := none }
    let h2 := updateHeap h1 w { h1 w with children := (h1 w).children.erase c }
    markDirtyHeap h2 fuel w
  else h

/-- One public hierarchy operation. -/
inductive COp where
  | add (w : Nat) (c : Option Nat)
  | rem (w : Nat) (c : Nat)

/-- Interpretation of one operation. -/
def applyOp (fuel : Nat) (h : Heap) : COp → Heap
  | .add w c => add_child h fuel w c
  | .rem w c => remove_child h fuel w c

/-- Interpretation of an operation sequence, first operation first. -/
def applyOps (fuel : Nat) (h : Heap) (ops : List COp) : Heap :=
  ops.foldl (applyOp fuel) h

/-- The link invariant: a widget listed as a child has its parent pointer
set to exactly the listing widget, and no child list repeats an entry. -/
def LinkInv (h : Heap) : Prop :=
  (∀ w c, c ∈ (h w).children → (h c).parent = some w) ∧
  (∀ w, (h w).children.Nodup)

/-- Sequences of operations in which every `add_child` of a real,
non-self child is applied while that child is parentless (fresh or
previously removed) — the regime the amended claim C10 restricts to. -/
inductive SafeOps (fuel : Nat) : Heap → List COp → Prop where
  | nil : ∀ h, SafeOps fuel h []
  | consAdd : ∀ h w c ops,
      (∀ c', c = some c' → c' ≠ w → (h c').parent = none) →
      SafeOps fuel (applyOp fuel h (.add w c)) ops →
      SafeOps fuel h (.add w c :: ops)
  | consRem : ∀ h w c ops,
      SafeOps fuel (applyOp fuel h (.rem w c)) ops →
      SafeOps fuel h (.rem w c :: ops)

/-- The empty heap: every widget parentless, childless, clean. -/
def emptyHeap : Heap := fun _ => ⟨none, [], false⟩

/-! ## Concrete instances used by the example theorems -/

/-- A window event with a concrete platform handle. -/
def evW : Event := Event.ofWindow ⟨⟨0, 0⟩, .close⟩ 7

/-- A concrete mouse-press payload. -/
def mPress : MouseEvent := ⟨⟨3, 3⟩, 0, .press, .left, ⟨0⟩⟩

/-- The mouse-press payload wrapped as an `Event`. -/
def eMouse : Event := Event.ofMouse mPress 0

/-- The default dispatcher with processing disabled. -/
def dDisabled : EventDispatcher := { EventDispatcher.init with enabled := false }

/-- A listener callback that never consumes. -/
def cbFalse : Event → Bool := fun _ => false

/-- Mouse listeners registered with priorities `[5, 1, 10]`, in that
order. -/
def dPrio : EventDispatcher :=
  ((EventDispatcher.init.add_listener .mouse cbFalse 5).add_listener
    .mouse cbFalse 1).add_listener .mouse cbFalse 10

/-- Widget data with given bounds and visibility and all other members at
their usual defaults. -/
def mkWD (b : Rectf) (vis : Bool) : WidgetData :=
  ⟨b, vis, false, false, ⟨0, 0⟩, ⟨5, 5⟩, ⟨100, 100⟩, Align.init, HookFlags.init⟩

/-- A root with two overlapping visible children; the second (last added,
topmost) covers `[2,6) x [2,6)`. -/
def tHit : Widget :=
  .mk (mkWD ⟨⟨0, 0⟩, ⟨10, 10⟩⟩ true)
    [.mk (mkWD ⟨⟨0, 0⟩, ⟨4, 4⟩⟩ true) [], .mk (mkWD ⟨⟨2, 2⟩, ⟨4, 4⟩⟩ true) []]

/-- A visible root over an invisible child that is marked dirty. -/
def tDirty : Widget :=
  .mk (mkWD ⟨⟨0, 0⟩, ⟨10, 10⟩⟩ true)
    [.mk { mkWD ⟨⟨0, 0⟩, ⟨4, 4⟩⟩ false with dirty := true } []]

/-- A child whose overridden `on_mouse_press` hook consumes. -/
def wConsume : Widget :=
  .mk { mkWD ⟨⟨0, 0⟩, ⟨4, 4⟩⟩ true with
        hooks := ⟨false, true, false, false, false⟩ } []

/-- A child with all-default hooks. -/
def wPassive : Widget := .mk (mkWD ⟨⟨0, 0⟩, ⟨4, 4⟩⟩ true) []

/-- A container configuration for the layout examples. -/
def specEx : BoxSpec := ⟨100, 30, 2, 5, .start⟩

/-- Two visible fixed-size (non-stretch) children. -/
def csFixed : List Widget := [wPassive, wConsume]

/-- The heap after `w0.add_child(c2); w1.add_child(c2)` from the empty
heap: the child ends up in both child lists but its parent pointer names
only the second adder. -/
def hTwoParents : Heap :=
  add_child (add_child emptyHeap 1 0 (some 2)) 1 1 (some 2)

/-! # Theorems -/

/-! ## Claim C8: variant construction and access -/

/-- C8: an `Event` built from a `WindowEvent` payload `w` answers
`is_window() = true`, `get_if<MouseEvent>() = nullptr` and
`get<WindowEvent>() = w`; and on any event, a type-mismatched checked
accessor `get<T>` throws while the unchecked `get_if<T>` returns the
absent indicator without failing. -/
theorem C8_variant_access : ∀ (w : WindowEvent) (hnd : Nat),
    ((Event.ofWindow w hnd).is_window = true
      ∧ (Event.ofWindow w hnd).getIfMouse = none
      ∧ (Event.ofWindow w hnd).getWindow = Except.ok w)
    ∧ ∀ e : Event,
        (e.holdsWindow = false → e.getWindow = Except.error () ∧ e.getIfWindow = none)
        ∧ (e.holdsMouse = false → e.getMouse = Except.error () ∧ e.getIfMouse = none)
        ∧ (e.holdsKeyboard = false →
            e.getKeyboard = Except.error () ∧ e.getIfKeyboard = none) := by
  intro w hnd
  refine ⟨⟨rfl, rfl, rfl⟩, ?_⟩
  intro e
  obtain ⟨d, h, t⟩ := e
  cases d <;>
    simp [Event.holdsWindow, Event.holdsMouse, Event.holdsKeyboard,
      Event.getWindow, Event.getMouse, Event.getKeyboard,
      Event.getIfWindow, Event.getIfMouse, Event.getIfKeyboard]

/-- C8 witness: the round-trip and one mismatch, on a concrete window
event. -/
theorem C8_variant_access_witness :
    (Event.ofWindow ⟨⟨0, 0⟩, .close⟩ 7).getMouse = Except.error ()
    ∧ (Event.ofWindow ⟨⟨0, 0⟩, .close⟩ 7).getIfMouse = none :=
  ((C8_variant_access ⟨⟨0, 0⟩, .close⟩ 7).2 (Event.ofWindow ⟨⟨0, 0⟩, .close⟩ 7)).2.1 rfl

/-! ## Claim C9: structural event equality, handle not compared -/

/-- C9: `Event::operator==` holds exactly when the type tags and the
payload variants agree, and in particular two events equal in tag and
payload but with different platform handles compare equal. -/
theorem C9_event_equality : ∀ e o : Event,
    (Event.eq e o = true ↔ e.type_ = o.type_ ∧ e.data = o.data)
    ∧ ∀ (d : EventVariant) (t : event_type) (h1 h2 : Nat),
        Event.eq ⟨d, h1, t⟩ ⟨d, h2, t⟩ = true := by
  intro e o
  constructor
  · simp [Event.eq]
  · intro d t h1 h2
    simp [Event.eq]

/-! ## Claim C4 (corrected): what disabling actually suppresses -/

/-- C4 counterexample: the claim says a disabled dispatcher's `push_event`
leaves the event queue unchanged, but `push_event` never consults
`enabled_`: pushing onto the disabled default dispatcher grows the queue
from `[]` to one element. -/
theorem C4_disabled_push_counterexample :
    (dDisabled.push_event evW).event_queue ≠ dDisabled.event_queue := by
  decide

/-- C4 (amended): with `enabled = false`, `process_events` and
`dispatch_event` are no-ops — no listener is invoked and the dispatcher
state (queue, listeners, counters) is untouched — and both remain callable;
`push_event`, however, ignores the enabled flag entirely and enqueues or
drops exactly as it does on an enabled dispatcher. -/
theorem C4_disabled_dispatcher : ∀ (d : EventDispatcher) (e : Event) (b : Bool),
    (d.enabled = false →
      d.process_events = (d, []) ∧ d.dispatch_event e = [])
    ∧ { d with enabled := b }.push_event e = { d.push_event e with enabled := b } := by
  intro d e b
  constructor
  · intro hdis
    constructor
    · simp [EventDispatcher.process_events, hdis]
    · simp [EventDispatcher.dispatch_event, hdis]
  · simp only [EventDispatcher.push_event]
    split <;> rfl

/-- C4 witness: the no-op half applied to the concrete disabled
dispatcher. -/
theorem C4_disabled_dispatcher_witness :
    dDisabled.process_events = (dDisabled, []) ∧ dDisabled.dispatch_event evW = [] :=
  (C4_disabled_dispatcher dDisabled evW true).1 rfl

/-! ## Claim C5: queue bound, drop counter, FIFO processing -/

/-- Unrolling of the `process_events` loop: the counter advances by the
queue length and the events come out front-first. -/
theorem processLoop_eq : ∀ (q : List Event) (n : Nat),
    processLoop q n = (n + q.length, q) := by
  intro q
  induction q with
  | nil => intro n; simp [processLoop]
  | cons e rest ih =>
      intro n
      simp [processLoop, ih, Nat.add_comm, Nat.add_assoc, Nat.add_left_comm]

/-- C5: `push_event` at or above capacity leaves the queue as is and bumps
`events_dropped` by one; below capacity it appends at the back and leaves
`events_dropped` alone; hence the queue never outgrows `max_queue_size`;
and on an enabled dispatcher `process_events` empties the queue, raises
`events_processed` by exactly the number of drained events, and dispatches
them in FIFO order. -/
theorem C5_queue_bound_and_counters : ∀ (d : EventDispatcher) (e : Event),
    (d.event_queue.length ≥ d.max_queue_size →
      d.push_event e = { d with events_dropped := d.events_dropped + 1 })
    ∧ (d.event_queue.length < d.max_queue_size →
      d.push_event e = { d with event_queue := d.event_queue ++ [e] })
    ∧ (d.event_queue.length ≤ d.max_queue_size →
      (d.push_event e).event_queue.length ≤ d.max_queue_size)
    ∧ (d.enabled = true →
      d.process_events.1.events_processed = d.events_processed + d.event_queue.length
      ∧ d.process_events.1.event_queue = []
      ∧ d.process_events.2 = d.event_queue) := by
  intro d e
  refine ⟨?_, ?_, ?_, ?_⟩
  · intro hfull
    simp [EventDispatcher.push_event, hfull]
  · intro hroom
    simp [EventDispatcher.push_event, Nat.not_le.mpr hroom]
  · intro hle
    by_cases hfull : d.event_queue.length ≥ d.max_queue_size
    · simp [EventDispatcher.push_event, hfull, hle]
    · have hroom := Nat.not_le.mp hfull
      simp [EventDispatcher.push_event, Nat.not_le.mpr hroom]
      exact hroom
  · intro hen
    simp [EventDispatcher.process_events, hen, processLoop_eq]

/-- C5 witness: pushing onto the fresh dispatcher (queue `0 < 1000`)
appends, and processing the result drains exactly one event. -/
theorem C5_queue_bound_and_counters_witness :
    EventDispatcher.init.push_event evW
      = { EventDispatcher.init with event_queue := EventDispatcher.init.event_queue ++ [evW] }
    ∧ ((EventDispatcher.init.push_event evW).process_events.1.events_processed
        = (EventDispatcher.init.push_event evW).events_processed
          + (EventDispatcher.init.push_event evW).event_queue.length
      ∧ (EventDispatcher.init.push_event evW).process_events.1.event_queue = []
      ∧ (EventDispatcher.init.push_event evW).process_events.2
          = (EventDispatcher.init.push_event evW).event_queue) :=
  ⟨(C5_queue_bound_and_counters EventDispatcher.init evW).2.1 (by decide),
   (C5_queue_bound_and_counters (EventDispatcher.init.push_event evW) evW).2.2.2 rfl⟩

/-! ## Claim C3: listener invocation order -/

/-- The listener loop invokes exactly the non-consumers before the first
consumer, plus that consumer, and reports whether any listener consumed. -/
theorem runListeners_eq : ∀ (e : Event) (ls : List PrioritizedListener),
    runListeners e ls = (invokedSpec e ls, ls.any fun l => l.callback e) := by
  intro e ls
  induction ls with
  | nil => simp [runListeners, invokedSpec]
  | cons l rest ih =>
      by_cases hc : l.callback e = true
      · simp [runListeners, invokedSpec, List.takeWhile_cons, List.dropWhile_cons, hc]
      · simp only [Bool.not_eq_true] at hc
        simp [runListeners, invokedSpec, List.takeWhile_cons, List.dropWhile_cons, hc, ih]

/-- The invoked slice starts where the listener list starts. -/
theorem invokedSpec_head : ∀ (e : Event) (ls : List PrioritizedListener),
    (invokedSpec e ls).head? = ls.head? := by
  intro e ls
  cases ls with
  | nil => rfl
  | cons l rest =>
      by_cases hc : l.callback e = true
      · simp [invokedSpec, List.takeWhile_cons, List.dropWhile_cons, hc]
      · simp only [Bool.not_eq_true] at hc
        simp [invokedSpec, List.takeWhile_cons, List.dropWhile_cons, hc]

/-- Cons-unfolding of descending sortedness: the head dominates the next
entry (when any) and the tail is sorted. -/
theorem sortedDesc_cons : ∀ (a : PrioritizedListener) (ls : List PrioritizedListener),
    SortedDesc (a :: ls) ↔ (∀ y ∈ ls.head?, y.priority ≤ a.priority) ∧ SortedDesc ls := by
  intro a ls
  cases ls with
  | nil => simp [SortedDesc, sortedDescB]
  | cons b rest =>
      simp [SortedDesc, sortedDescB, and_comm]

/-- A descending-priority list is invoked in descending priority order. -/
theorem sortedDesc_invokedSpec : ∀ (e : Event) (ls : List PrioritizedListener),
    SortedDesc ls → SortedDesc (invokedSpec e ls) := by
  intro e ls
  induction ls with
  | nil => intro _; simp [invokedSpec, SortedDesc, sortedDescB]
  | cons l rest ih =>
      intro hs
      rw [sortedDesc_cons] at hs
      by_cases hc : l.callback e = true
      · simp [invokedSpec, List.takeWhile_cons, List.dropWhile_cons, hc,
          SortedDesc, sortedDescB]
      · simp only [Bool.not_eq_true] at hc
        have hunf : invokedSpec e (l :: rest) = l :: invokedSpec e rest := by
          simp [invokedSpec, List.takeWhile_cons, List.dropWhile_cons, hc]
        rw [hunf, sortedDesc_cons]
        refine ⟨?_, ih hs.2⟩
        intro y hy
        rw [invokedSpec_head] at hy
        exact hs.1 y hy

/-- Where the re-sort of `add_listener` puts a new entry: inserting into a
descending-priority list keeps it descending. -/
theorem insertByPriority_sorted : ∀ (l : PrioritizedListener) (ls : List PrioritizedListener),
    SortedDesc ls → SortedDesc (insertByPriority l ls) := by
  intro l ls
  induction ls with
  | nil => intro _; simp [insertByPriority, SortedDesc, sortedDescB]
  | cons x xs ih =>
      intro hs
      have hs' := (sortedDesc_cons x xs).mp hs
      by_cases hgt : l.priority > x.priority
      · rw [insertByPriority, if_pos hgt, sortedDesc_cons]
        refine ⟨?_, hs⟩
        intro y hy
        simp only [List.head?_cons, Option.mem_def, Option.some.injEq] at hy
        subst hy
        exact le_of_lt hgt
      · rw [insertByPriority, if_neg hgt, sortedDesc_cons]
        refine ⟨?_, ih hs'.2⟩
        intro y hy
        cases xs with
        | nil =>
            simp only [insertByPriority, List.head?_cons, Option.mem_def,
              Option.some.injEq] at hy
            subst hy
            exact le_of_not_lt hgt
        | cons z zs =>
            by_cases hz : l.priority > z.priority
            · simp only [insertByPriority, if_pos hz, List.head?_cons, Option.mem_def,
                Option.some.injEq] at hy
              subst hy
              exact le_of_not_lt hgt
            · simp only [insertByPriority, if_neg hz, List.head?_cons, Option.mem_def,
                Option.some.injEq] at hy
              subst hy
              exact hs'.1 z (by simp)

/-- C3: on an enabled dispatcher whose listener lists carry the
descending-priority order `add_listener` maintains, `dispatch_event`
invokes the global listeners first, in descending priority order, stopping
at the first consumer; a global consumer skips the per-type listeners
entirely; otherwise the listeners for the event's tag run, again in
descending order and stopping at the first consumer.  The registration
functions themselves keep every list descending. -/
theorem C3_dispatch_priority_order : ∀ (d : EventDispatcher) (e : Event),
    d.enabled = true →
    SortedDesc d.global_listeners →
    (∀ t, SortedDesc (d.listeners t)) →
    (d.dispatch_event e =
        if d.global_listeners.any fun l => l.callback e then
          invokedSpec e d.global_listeners
        else invokedSpec e d.global_listeners ++ invokedSpec e (d.listeners e.type))
    ∧ SortedDesc (invokedSpec e d.global_listeners)
    ∧ SortedDesc (invokedSpec e (d.listeners e.type))
    ∧ (∀ ty cb p t, SortedDesc ((d.add_listener ty cb p).listeners t))
    ∧ (∀ cb p, SortedDesc ((d.add_global_listener cb p).global_listeners)) := by
  intro d e hen hg hl
  refine ⟨?_, sortedDesc_invokedSpec e _ hg, sortedDesc_invokedSpec e _ (hl e.type), ?_, ?_⟩
  · rw [EventDispatcher.dispatch_event, if_neg (by rw [hen]; simp)]
    simp only [runListeners_eq]
  · intro ty cb p t
    simp only [EventDispatcher.add_listener]
    by_cases ht : t = ty
    · simp only [ht, if_pos rfl]
      exact insertByPriority_sorted _ _ (hl ty)
    · simp only [if_neg ht]
      exact hl t
  · intro cb p
    exact insertByPriority_sorted _ _ hg

/-- C3 witness: registering mouse listeners with priorities `[5, 1, 10]`
and dispatching a mouse event invokes them in order `[10, 5, 1]`. -/
theorem C3_dispatch_priority_order_witness :
    (dPrio.dispatch_event eMouse).map PrioritizedListener.priority = [10, 5, 1] := by
  have h := (C3_dispatch_priority_order dPrio eMouse rfl (by decide)
      (fun t => by cases t <;> decide)).1
  rw [h]
  rfl

/-! ## Claim C2: dirty propagation and the render pass -/

/-- Index bridge for path lookup through a child list. -/
theorem getNodeChildren_eq : ∀ (cs : List Widget) (i : Nat) (rest : List Nat),
    getNodeChildren cs i rest =
      match cs.get? i with
      | some c => c.getNode rest
      | none => none := by
  intro cs
  induction cs with
  | nil => intro i rest; cases i <;> rfl
  | cons c cs ih =>
      intro i rest
      cases i with
      | zero => rfl
      | succ n => simpa [getNodeChildren] using ih n rest

/-- Index bridge for along-path visibility through a child list. -/
theorem allVisibleChildren_eq : ∀ (cs : List Widget) (i : Nat) (rest : List Nat),
    allVisibleChildren cs i rest =
      match cs.get? i with
      | some c => allVisibleAlong c rest
      | none => false := by
  intro cs
  induction cs with
  | nil => intro i rest; cases i <;> rfl
  | cons c cs ih =>
      intro i rest
      cases i with
      | zero => rfl
      | succ n => simpa [allVisibleChildren] using ih n rest

/-- Marking along a path rewrites exactly the indexed child. -/
theorem markDirtyChildren_get : ∀ (cs : List Widget) (i : Nat) (rest : List Nat) (j : Nat),
    (markDirtyChildren cs i rest).get? j =
      if j = i then (cs.get? i).map (fun c => c.mark_dirty rest) else cs.get? j := by
  intro cs
  induction cs with
  | nil =>
      intro i rest j
      cases i <;> cases j <;> simp [markDirtyChildren]
  | cons c cs ih =>
      intro i rest j
      cases i with
      | zero =>
          cases j with
          | zero => simp [markDirtyChildren]
          | succ m => simp [markDirtyChildren]
      | succ n =>
          cases j with
          | zero => simp [markDirtyChildren]
          | succ m => simpa [markDirtyChildren, Nat.succ_eq_add_one] using ih n rest m

/-- Rendering a child list renders each child in place. -/
theorem renderChildren_get : ∀ (cs : List Widget) (i : Nat),
    (renderChildren cs).get? i = (cs.get? i).map Widget.render := by
  intro cs
  induction cs with
  | nil => intro i; cases i <;> rfl
  | cons c cs ih =>
      intro i
      cases i with
      | zero => rfl
      | succ n => simpa [renderChildren] using ih n

/-- `mark_dirty` leaves the dirty bit set on every widget from the root
down to the marked one. -/
theorem markDirty_path_dirty : ∀ (path : List Nat) (w : Widget) (k : Nat),
    (w.getNode path).isSome = true → k ≤ path.length →
    ((w.mark_dirty path).getNode (path.take k)).map Widget.is_dirty = some true := by
  intro path
  induction path with
  | nil =>
      intro w k _ hk
      obtain ⟨d, cs⟩ := w
      have hk0 : k = 0 := Nat.le_zero.mp (by simpa using hk)
      subst hk0
      simp [Widget.mark_dirty, Widget.getNode, Widget.is_dirty, Widget.data]
  | cons i rest ih =>
      intro w k hsome hk
      obtain ⟨d, cs⟩ := w
      cases k with
      | zero =>
          simp [Widget.mark_dirty, Widget.getNode, Widget.is_dirty, Widget.data]
      | succ k' =>
          have hk' : k' ≤ rest.length := Nat.le_of_succ_le_succ hk
          rw [Widget.getNode, getNodeChildren_eq] at hsome
          rcases hc : cs.get? i with _ | c
          · rw [hc] at hsome; simp at hsome
          · rw [hc] at hsome
            simp only [List.take_succ_cons, Widget.mark_dirty, Widget.getNode,
              getNodeChildren_eq, markDirtyChildren_get, if_pos rfl, hc, Option.map_some]
            exact ih c k' hsome hk'

/-- `render` clears the dirty flag of every widget it visits, i.e. every
widget whose whole ancestor chain (itself included) is visible. -/
theorem render_clears_visible_path : ∀ (path : List Nat) (w : Widget),
    allVisibleAlong w path = true →
    ((w.render).getNode path).map Widget.is_dirty = some false := by
  intro path
  induction path with
  | nil =>
      intro w hvis
      obtain ⟨d, cs⟩ := w
      rw [allVisibleAlong] at hvis
      simp [Widget.render, hvis, Widget.getNode, Widget.is_dirty, Widget.data]
  | cons i rest ih =>
      intro w hvis
      obtain ⟨d, cs⟩ := w
      rw [allVisibleAlong, Bool.and_eq_true, allVisibleChildren_eq] at hvis
      obtain ⟨hdvis, hrest⟩ := hvis
      rcases hc : cs.get? i with _ | c
      · rw [hc] at hrest; simp at hrest
      · rw [hc] at hrest
        simp only [Widget.render, hdvis, Bool.not_true, Bool.false_eq_true, if_false,
          Widget.getNode, getNodeChildren_eq, renderChildren_get, hc, Option.map_some]
        exact ih c hrest

/-- A widget whose visible flag is off is skipped whole by `render`: the
node found under it (itself included) is exactly what it was before, dirty
flag and all. -/
theorem render_keeps_invisible_node : ∀ (path : List Nat) (w : Widget),
    (w.getNode path).map Widget.is_visible = some false →
    (w.render).getNode path = w.getNode path := by
  intro path
  induction path with
  | nil =>
      intro w hinv
      obtain ⟨d, cs⟩ := w
      have hfalse : d.visible = false := by
        simpa [Widget.getNode, Widget.is_visible, Widget.data] using hinv
      simp [Widget.render, hfalse, Widget.getNode]
  | cons i rest ih =>
      intro w hinv
      obtain ⟨d, cs⟩ := w
      by_cases hdvis : d.visible = true
      · rw [Widget.getNode, getNodeChildren_eq] at hinv
        rcases hc : cs.get? i with _ | c
        · rw [hc] at hinv; simp at hinv
        · rw [hc] at hinv
          simp only [Widget.render, hdvis, Bool.not_true, Bool.false_eq_true, if_false,
            Widget.getNode, getNodeChildren_eq, renderChildren_get, hc, Option.map_some]
          exact ih c hinv
      · simp only [Bool.not_eq_true] at hdvis
        simp [Widget.render, hdvis]

/-- C2: marking a widget dirty sets the dirty flag on it and on every
ancestor up to the root; `render` returns at once on an invisible widget
(subtree untouched, dirty flag kept), while on a visible widget it draws,
renders the children in insertion order, and clears only its own flag —
so exactly the widgets on all-visible paths come out clean, and any widget
under (or at) an invisible one is untouched. -/
theorem C2_dirty_and_render : ∀ (w : Widget) (path : List Nat) (k : Nat),
    ((w.getNode path).isSome = true → k ≤ path.length →
      ((w.mark_dirty path).getNode (path.take k)).map Widget.is_dirty = some true)
    ∧ (w.is_visible = false → w.render = w)
    ∧ (w.is_visible = true →
        w.render = Widget.mk { w.data with dirty := false } (renderChildren w.children))
    ∧ (allVisibleAlong w path = true →
        ((w.render).getNode path).map Widget.is_dirty = some false)
    ∧ ((w.getNode path).map Widget.is_visible = some false →
        (w.render).getNode path = w.getNode path) := by
  intro w path k
  refine ⟨fun hs hk => markDirty_path_dirty path w k hs hk, ?_, ?_,
    fun hv => render_clears_visible_path path w hv,
    fun hv => render_keeps_invisible_node path w hv⟩
  · intro hinv
    obtain ⟨d, cs⟩ := w
    simp only [Widget.is_visible, Widget.data] at hinv
    simp [Widget.render, hinv]
  · intro hvis
    obtain ⟨d, cs⟩ := w
    simp only [Widget.is_visible, Widget.data] at hvis
    simp [Widget.render, hvis, Widget.data, Widget.children]

/-- C2 witness: on a visible root over an invisible dirty child, marking
the child dirties both, and rendering leaves the invisible child (and its
dirty flag) untouched. -/
theorem C2_dirty_and_render_witness :
    ((tDirty.mark_dirty [0]).getNode ([0].take 1)).map Widget.is_dirty = some true
    ∧ (tDirty.render).getNode [0] = tDirty.getNode [0] :=
  ⟨(C2_dirty_and_render tDirty [0] 1).1 rfl (by decide),
   (C2_dirty_and_render tDirty [0] 1).2.2.2.2 rfl⟩

/-! ## Claim C1: hit testing -/

/-- Option scanning distributes over append. -/
theorem firstSome_append : ∀ {α : Type} (xs ys : List (Option α)),
    firstSome (xs ++ ys) =
      match firstSome xs with
      | some a => some a
      | none => firstSome ys := by
  intro α xs ys
  induction xs with
  | nil => simp [firstSome]
  | cons o os ih =>
      cases o with
      | none => simpa [firstSome] using ih
      | some a => simp [firstSome]

/-- The reverse-iterator child loop inspects the children in reverse
insertion order and keeps the first hit. -/
theorem hitTestChildren_eq : ∀ (cs : List Widget) (p : Pointf),
    hitTestChildren cs p = firstSome (cs.reverse.map fun c => c.hit_test p) := by
  intro cs p
  induction cs with
  | nil => rfl
  | cons c rest ih =>
      rw [hitTestChildren, ih]
      have hsplit : (c :: rest).reverse.map (fun c => c.hit_test p)
          = rest.reverse.map (fun c => c.hit_test p) ++ [c.hit_test p] := by
        rw [List.reverse_cons, List.map_append, List.map_cons, List.map_nil]
      rw [hsplit, firstSome_append]
      rcases hh : firstSome (rest.reverse.map fun c => c.hit_test p) with _ | hit
      · rw [hh]
        rcases hc : c.hit_test p with _ | hit2 <;> rfl
      · rw [hh]

mutual
/-- Whatever `hit_test` returns is reachable through visible widgets
only. -/
theorem hit_test_mem : ∀ (w : Widget) (p : Pointf) (r : Widget),
    w.hit_test p = some r → r ∈ visibleMembers w
  | .mk d cs, p, r => by
    intro h
    rw [Widget.hit_test] at h
    by_cases hv : (!d.visible || !(d.bounds.contains p)) = true
    · rw [if_pos hv] at h
      exact absurd h (by simp)
    · rw [if_neg hv] at h
      simp only [Bool.or_eq_true, Bool.not_eq_true', not_or, Bool.not_eq_false] at hv
      rcases hh : hitTestChildren cs (p.sub d.bounds.pos) with _ | hit
      · rw [hh] at h
        simp only [Option.some.injEq] at h
        subst h
        rw [visibleMembers, if_pos hv.1]
        exact List.mem_cons_self _ _
      · rw [hh] at h
        simp only [Option.some.injEq] at h
        subst h
        rw [visibleMembers, if_pos hv.1]
        exact List.mem_cons_of_mem _ (hitTestChildren_mem cs (p.sub d.bounds.pos) _ hh)
/-- List version of `hit_test_mem` over the children. -/
theorem hitTestChildren_mem : ∀ (cs : List Widget) (p : Pointf) (r : Widget),
    hitTestChildren cs p = some r → r ∈ visibleMembersList cs
  | [], p, r => by intro h; exact absurd h (by simp [hitTestChildren])
  | c :: rest, p, r => by
    intro h
    rw [hitTestChildren] at h
    rcases hh : hitTestChildren rest p with _ | hit
    · rw [hh] at h
      rw [visibleMembersList]
      exact List.mem_append_left _ (hit_test_mem c p r h)
    · rw [hh] at h
      simp only [Option.some.injEq] at h
      subst h
      rw [visibleMembersList]
      exact List.mem_append_right _ (hitTestChildren_mem rest p _ hh)
end

mutual
/-- Every visible-reachable widget is itself visible. -/
theorem mem_visibleMembers_visible : ∀ (w r : Widget),
    r ∈ visibleMembers w → r.is_visible = true
  | .mk d cs, r => by
    intro h
    rw [visibleMembers] at h
    by_cases hv : d.visible = true
    · rw [if_pos hv] at h
      rcases List.mem_cons.mp h with heq | hmem
      · subst heq; exact hv
      · exact mem_visibleMembersList_visible cs r hmem
    · rw [if_neg hv] at h
      exact absurd h (List.not_mem_nil r)
/-- List version of `mem_visibleMembers_visible`. -/
theorem mem_visibleMembersList_visible : ∀ (cs : List Widget) (r : Widget),
    r ∈ visibleMembersList cs → r.is_visible = true
  | [], r => by intro h; exact absurd h (by simp [visibleMembersList])
  | c :: rest, r => by
    intro h
    rw [visibleMembersList] at h
    rcases List.mem_append.mp h with hl | hr
    · exact mem_visibleMembers_visible c r hl
    · exact mem_visibleMembersList_visible rest r hr
end

/-- C1: `hit_test` yields null exactly on an invisible widget or a point
outside the half-open bounds; otherwise it is the first non-null result of
the children, tried in reverse insertion order on the translated point,
with the widget itself as fallback; and any returned widget lies on an
all-visible branch (so invisible widgets and their whole subtrees are
never returned) and is itself visible. -/
theorem C1_hit_test : ∀ (w : Widget) (p : Pointf),
    ((w.is_visible = false ∨ w.containsPt p = false) → w.hit_test p = none)
    ∧ (w.is_visible = true → w.containsPt p = true →
        w.hit_test p = some ((firstSome (w.children.reverse.map
          fun c => c.hit_test (p.sub w.data.bounds.pos))).getD w))
    ∧ ∀ r, w.hit_test p = some r → r ∈ visibleMembers w ∧ r.is_visible = true := by
  intro w p
  obtain ⟨d, cs⟩ := w
  refine ⟨?_, ?_, fun r h => ⟨hit_test_mem _ p r h,
    mem_visibleMembers_visible _ r (hit_test_mem _ p r h)⟩⟩
  · intro hcase
    rw [Widget.hit_test, if_pos ?_]
    simp only [Widget.is_visible, Widget.containsPt, Widget.data] at hcase
    rcases hcase with hinv | hout
    · simp [hinv]
    · simp [hout]
  · intro hvis hin
    simp only [Widget.is_visible, Widget.containsPt, Widget.data] at hvis hin
    rw [Widget.hit_test, if_neg (by simp [hvis, hin])]
    simp only [Widget.children, Widget.data]
    rw [hitTestChildren_eq]
    rcases hh : firstSome (cs.reverse.map fun c => c.hit_test (p.sub d.bounds.pos))
      with _ | hit
    · rw [hh]; rfl
    · rw [hh]; rfl

/-- The concrete query point lies inside the example root. -/
theorem tHit_root_contains : tHit.containsPt ⟨3, 3⟩ = true := by
  norm_num [tHit, mkWD, Widget.containsPt, Widget.data, Rectf.contains,
    Rectf.left, Rectf.right, Rectf.top, Rectf.bottom]

/-- C1 witness: hit-testing the example tree at `(3,3)` takes the
children-first branch of the algorithm. -/
theorem C1_hit_test_witness :
    tHit.hit_test ⟨3, 3⟩ = some ((firstSome (tHit.children.reverse.map
      fun c => c.hit_test (Pointf.sub ⟨3, 3⟩ tHit.data.bounds.pos))).getD tHit) :=
  (C1_hit_test tHit ⟨3, 3⟩).2.1 rfl tHit_root_contains

/-! ## Claim C7: children-first event routing and default hooks -/

/-- When no child consumes, the children loop processes every child in
insertion order and reports non-consumption. -/
theorem onEventChildren_no_consumer : ∀ (cs : List Widget) (e : Event),
    (∀ c ∈ cs, (c.on_event e).2 = false) →
    onEventChildren cs e = (cs.map fun c => (c.on_event e).1, false) := by
  intro cs e
  induction cs with
  | nil => intro _; rfl
  | cons c rest ih =>
      intro hall
      rw [onEventChildren]
      rw [hall c (List.mem_cons_self c rest)]
      rw [ih fun x hx => hall x (List.mem_cons_of_mem c hx)]
      simp

/-- The children loop stops at the first consuming child: children before
it are processed, the consumer is processed, and the children after it are
returned untouched. -/
theorem onEventChildren_first_consumer :
    ∀ (cs1 : List Widget) (c : Widget) (cs2 : List Widget) (e : Event),
    (∀ x ∈ cs1, (x.on_event e).2 = false) →
    (c.on_event e).2 = true →
    onEventChildren (cs1 ++ c :: cs2) e
      = (cs1.map (fun x => (x.on_event e).1) ++ (c.on_event e).1 :: cs2, true) := by
  intro cs1
  induction cs1 with
  | nil =>
      intro c cs2 e _ hcons
      rw [List.nil_append, onEventChildren, hcons]
      simp
  | cons x rest ih =>
      intro c cs2 e hall hcons
      rw [List.cons_append, onEventChildren]
      rw [hall x (List.mem_cons_self x rest)]
      rw [ih c cs2 e (fun y hy => hall y (List.mem_cons_of_mem x hy)) hcons]
      simp

/-- C7: the event goes to the children first, in insertion order; the
first child consuming it ends the pass — later children are untouched and
the widget's own handling (its data word included) is skipped; with no
consuming child the widget dispatches by event kind and then by state to
the hooks, whose defaults return `false`, except that the default
`on_mouse_enter` sets the hovered flag and `on_mouse_leave` clears it while
both still return `false`. -/
theorem C7_event_routing : ∀ (d : WidgetData) (cs cs1 cs2 : List Widget)
    (c : Widget) (e : Event) (m : MouseEvent) (k : KeyboardEvent) (hnd : Nat),
    ((∀ x ∈ cs1, (x.on_event e).2 = false) → (c.on_event e).2 = true →
      Widget.on_event (.mk d (cs1 ++ c :: cs2)) e
        = (.mk d (cs1.map (fun x => (x.on_event e).1) ++ (c.on_event e).1 :: cs2), true))
    ∧ ((onEventChildren cs (Event.ofMouse m hnd)).2 = false →
        Widget.on_event (.mk d cs) (Event.ofMouse m hnd)
          = Widget.on_mouse_event (.mk d (onEventChildren cs (Event.ofMouse m hnd)).1) m)
    ∧ ((onEventChildren cs (Event.ofKeyboard k hnd)).2 = false →
        Widget.on_event (.mk d cs) (Event.ofKeyboard k hnd)
          = Widget.on_keyboard_event (.mk d (onEventChildren cs (Event.ofKeyboard k hnd)).1) k)
    ∧ (m.state = .enter →
        Widget.on_mouse_event (.mk d cs) m
          = (.mk { d with hovered := true, dirty := true } cs, false))
    ∧ (m.state = .leave →
        Widget.on_mouse_event (.mk d cs) m
          = (.mk { d with hovered := false, dirty := true } cs, false))
    ∧ (m.state = .move →
        Widget.on_mouse_event (.mk d cs) m = (.mk d cs, d.hooks.on_mouse_move))
    ∧ (m.state = .press →
        Widget.on_mouse_event (.mk d cs) m = (.mk d cs, d.hooks.on_mouse_press))
    ∧ (m.state = .release →
        Widget.on_mouse_event (.mk d cs) m = (.mk d cs, d.hooks.on_mouse_release))
    ∧ (k.state = .press →
        Widget.on_keyboard_event (.mk d cs) k = (.mk d cs, d.hooks.on_key_press))
    ∧ (k.state = .release →
        Widget.on_keyboard_event (.mk d cs) k = (.mk d cs, d.hooks.on_key_release))
    ∧ (d.hooks = HookFlags.init →
        (Widget.on_mouse_event (.mk d cs) m).2 = false
        ∧ (Widget.on_keyboard_event (.mk d cs) k).2 = false) := by
  intro d cs cs1 cs2 c e m k hnd
  refine ⟨?_, ?_, ?_, ?_, ?_, ?_, ?_, ?_, ?_, ?_, ?_⟩
  · intro hall hcons
    rw [Widget.on_event, onEventChildren_first_consumer cs1 c cs2 e hall hcons]
    rfl
  · intro hnone
    rw [Widget.on_event]
    rcases hoc : onEventChildren cs (Event.ofMouse m hnd) with ⟨cs', b⟩
    rw [hoc] at hnone
    simp only at hnone
    subst hnone
    rfl
  · intro hnone
    rw [Widget.on_event]
    rcases hoc : onEventChildren cs (Event.ofKeyboard k hnd) with ⟨cs', b⟩
    rw [hoc] at hnone
    simp only at hnone
    subst hnone
    rfl
  · intro hst; rw [Widget.on_mouse_event, hst]
  · intro hst; rw [Widget.on_mouse_event, hst]
  · intro hst; rw [Widget.on_mouse_event, hst]
  · intro hst; rw [Widget.on_mouse_event, hst]
  · intro hst; rw [Widget.on_mouse_event, hst]
  · intro hst; rw [Widget.on_keyboard_event, hst]
  · intro hst; rw [Widget.on_keyboard_event, hst]
  · intro hdef
    rw [Widget.on_mouse_event, Widget.on_keyboard_event, hdef]
    cases m.state <;> cases k.state <;> exact ⟨rfl, rfl⟩

/-- C7 witness: with a passive first child and a consuming second child,
the mouse press stops at the consumer and the parent's own handling never
runs. -/
theorem C7_event_routing_witness :
    Widget.on_event (.mk (mkWD ⟨⟨0, 0⟩, ⟨10, 10⟩⟩ true) ([wPassive] ++ wConsume :: []))
        eMouse
      = (.mk (mkWD ⟨⟨0, 0⟩, ⟨10, 10⟩⟩ true)
          ([wPassive].map (fun x => (x.on_event eMouse).1)
            ++ (wConsume.on_event eMouse).1 :: []), true) :=
  (C7_event_routing (mkWD ⟨⟨0, 0⟩, ⟨10, 10⟩⟩ true) [] [wPassive] [] wConsume eMouse
      mPress ⟨1, 0, 0, .press, ⟨0⟩, false⟩ 0).1
    (fun x hx => by rw [List.mem_singleton.mp hx]; rfl) rfl

/-! ## Claim C6: box-layout arithmetic -/

/-- The width computed inside the `HBox` loop is the claim's per-child
width formula. -/
theorem hboxWidth_eq : ∀ (sw : ℚ) (c : Widget),
    clampQ (if isStretchH c then max sw c.data.min_size.w else c.data.preferred_size.w)
        c.data.min_size.w c.data.max_size.w = hboxWidthSpec sw c := by
  intro sw c
  by_cases h : isStretchH c = true <;> simp [hboxWidthSpec, h]

/-- The height computed inside the `VBox` loop is the claim's per-child
height formula. -/
theorem vboxHeight_eq : ∀ (sh : ℚ) (c : Widget),
    clampQ (if isStretchV c then max sh c.data.min_size.h else c.data.preferred_size.h)
        c.data.min_size.h c.data.max_size.h = vboxHeightSpec sh c := by
  intro sh c
  by_cases h : isStretchV c = true <;> simp [vboxHeightSpec, h]

/-- Widths assigned by the `HBox` loop: one per visible child, in order,
each given by the claim's formula; invisible children are skipped. -/
theorem hboxPlace_widths : ∀ (spec : BoxSpec) (sw : ℚ) (cs : List Widget) (x : ℚ),
    ((hboxPlace spec sw cs x).filterMap id).map (fun r => r.size.w)
      = (cs.filter fun c => c.data.visible).map (hboxWidthSpec sw) := by
  intro spec sw cs
  induction cs with
  | nil => intro x; rfl
  | cons c rest ih =>
      intro x
      by_cases hv : c.data.visible = true
      · simp [hboxPlace, hv, List.filter_cons, ih, hboxWidth_eq]
      · simp only [Bool.not_eq_true] at hv
        simp [hboxPlace, hv, List.filter_cons, ih]

/-- Heights assigned by the `VBox` loop. -/
theorem vboxPlace_heights : ∀ (spec : BoxSpec) (sh : ℚ) (cs : List Widget) (y : ℚ),
    ((vboxPlace spec sh cs y).filterMap id).map (fun r => r.size.h)
      = (cs.filter fun c => c.data.visible).map (vboxHeightSpec sh) := by
  intro spec sh cs
  induction cs with
  | nil => intro y; rfl
  | cons c rest ih =>
      intro y
      by_cases hv : c.data.visible = true
      · simp [vboxPlace, hv, List.filter_cons, ih, vboxHeight_eq]
      · simp only [Bool.not_eq_true] at hv
        simp [vboxPlace, hv, List.filter_cons, ih]

/-- Main-axis positions assigned by the `HBox` loop: sequential placement
from the cursor, each advance adding the child's width plus the spacing. -/
theorem hboxPlace_xs : ∀ (spec : BoxSpec) (sw : ℚ) (cs : List Widget) (x : ℚ),
    ((hboxPlace spec sw cs x).filterMap id).map (fun r => r.pos.x)
      = seqPositions spec.spacing x ((cs.filter fun c => c.data.visible).map
          (hboxWidthSpec sw)) := by
  intro spec sw cs
  induction cs with
  | nil => intro x; rfl
  | cons c rest ih =>
      intro x
      by_cases hv : c.data.visible = true
      · simp [hboxPlace, hv, List.filter_cons, seqPositions, ih, hboxWidth_eq]
      · simp only [Bool.not_eq_true] at hv
        simp [hboxPlace, hv, List.filter_cons, ih]

/-- Main-axis positions assigned by the `VBox` loop. -/
theorem vboxPlace_ys : ∀ (spec : BoxSpec) (sh : ℚ) (cs : List Widget) (y : ℚ),
    ((vboxPlace spec sh cs y).filterMap id).map (fun r => r.pos.y)
      = seqPositions spec.spacing y ((cs.filter fun c => c.data.visible).map
          (vboxHeightSpec sh)) := by
  intro spec sh cs
  induction cs with
  | nil => intro y; rfl
  | cons c rest ih =>
      intro y
      by_cases hv : c.data.visible = true
      · simp [vboxPlace, hv, List.filter_cons, seqPositions, ih, vboxHeight_eq]
      · simp only [Bool.not_eq_true] at hv
        simp [vboxPlace, hv, List.filter_cons, ih]

/-- The empty-children early return coincides with running the loop. -/
theorem hboxLayout_eq : ∀ (spec : BoxSpec) (cs : List Widget),
    HBox.layout spec cs = hboxPlace spec (stretch_width spec cs) cs spec.padding := by
  intro spec cs
  cases cs <;> rfl

/-- The empty-children early return coincides with running the loop. -/
theorem vboxLayout_eq : ∀ (spec : BoxSpec) (cs : List Widget),
    VBox.layout spec cs = vboxPlace spec (stretch_height spec cs) cs spec.padding := by
  intro spec cs
  cases cs <;> rfl

/-- The `HBox` loop never reads the container width (the width enters only
through the precomputed stretch share). -/
theorem hboxPlace_width_irrelevant : ∀ (spec : BoxSpec) (W sw : ℚ) (cs : List Widget) (x : ℚ),
    hboxPlace { spec with width := W } sw cs x = hboxPlace spec sw cs x := by
  intro spec W sw cs
  induction cs with
  | nil => intro x; rfl
  | cons c rest ih =>
      intro x
      by_cases hv : c.data.visible = true
      · have hcross : hboxCross { spec with width := W } c = hboxCross spec c := by
          cases halign : spec.alignment <;> simp [hboxCross, halign]
        simp [hboxPlace, hv, ih, hcross]
      · simp only [Bool.not_eq_true] at hv
        simp [hboxPlace, hv, ih]

/-- The `VBox` loop never reads the container height. -/
theorem vboxPlace_height_irrelevant : ∀ (spec : BoxSpec) (H sh : ℚ) (cs : List Widget) (y : ℚ),
    vboxPlace { spec with height := H } sh cs y = vboxPlace spec sh cs y := by
  intro spec H sh cs
  induction cs with
  | nil => intro y; rfl
  | cons c rest ih =>
      intro y
      by_cases hv : c.data.visible = true
      · have hcross : vboxCross { spec with height := H } c = vboxCross spec c := by
          cases halign : spec.alignment <;> simp [vboxCross, halign]
        simp [vboxPlace, hv, ih, hcross]
      · simp only [Bool.not_eq_true] at hv
        simp [vboxPlace, hv, ih]

/-- Stretch children are visible children. -/
theorem stretch_le_visibleH : ∀ cs : List Widget, stretch_countH cs ≤ visible_count cs := by
  intro cs
  rw [stretch_countH, visible_count]
  have h : cs.filter (fun c => c.data.visible && isStretchH c)
      = (cs.filter fun c => isStretchH c).filter fun c => c.data.visible := by
    rw [List.filter_filter]
  rw [h]
  exact ((List.filter_sublist cs).filter _).length_le

/-- Stretch children are visible children. -/
theorem stretch_le_visibleV : ∀ cs : List Widget, stretch_countV cs ≤ visible_count cs := by
  intro cs
  rw [stretch_countV, visible_count]
  have h : cs.filter (fun c => c.data.visible && isStretchV c)
      = (cs.filter fun c => isStretchV c).filter fun c => c.data.visible := by
    rw [List.filter_filter]
  rw [h]
  exact ((List.filter_sublist cs).filter _).length_le

/-- With at least one visible child the `std::max(0, n-1)` spacing factor
is plainly `n - 1`. -/
theorem total_spacingQ_eq : ∀ (s : ℚ) (cs : List Widget), 1 ≤ visible_count cs →
    total_spacingQ s cs = s * ((visible_count cs : ℚ) - 1) := by
  intro s cs h1
  rw [total_spacingQ]
  have hmax : max 0 ((visible_count cs : Int) - 1) = (visible_count cs : Int) - 1 := by
    rw [max_eq_right]
    omega
  rw [hmax]
  push_cast
  ring

/-- C6: the `HBox`/`VBox` pass hands every visible child, in order, the
claim's main-axis size — preferred (non-stretch) or `max(share, min)`
(stretch), clamped to `[min, max]` — with the share equal to the leftover
(container size minus `padding*2`, minus `spacing*(visible-1)`, minus the
summed non-stretch preferred sizes) divided evenly by the stretch count;
children are placed sequentially from `padding`, each advance adding size
plus spacing; and with zero stretch children the container's main-axis
size never enters the loop, so the leftover stays an unused trailing
gap. -/
theorem C6_box_layout : ∀ (spec : BoxSpec) (cs : List Widget) (W H : ℚ),
    ((HBox.layout spec cs).filterMap id).map (fun r => r.size.w)
      = (cs.filter fun c => c.data.visible).map (hboxWidthSpec (stretch_width spec cs))
    ∧ ((HBox.layout spec cs).filterMap id).map (fun r => r.pos.x)
      = seqPositions spec.spacing spec.padding
          ((cs.filter fun c => c.data.visible).map (hboxWidthSpec (stretch_width spec cs)))
    ∧ (0 < stretch_countH cs →
        stretch_width spec cs
          = (spec.width - spec.padding * 2 - spec.spacing * ((visible_count cs : ℚ) - 1)
              - total_preferred_width cs) / (stretch_countH cs : ℚ))
    ∧ (stretch_countH cs = 0 →
        HBox.layout { spec with width := W } cs = HBox.layout spec cs)
    ∧ ((VBox.layout spec cs).filterMap id).map (fun r => r.size.h)
      = (cs.filter fun c => c.data.visible).map (vboxHeightSpec (stretch_height spec cs))
    ∧ ((VBox.layout spec cs).filterMap id).map (fun r => r.pos.y)
      = seqPositions spec.spacing spec.padding
          ((cs.filter fun c => c.data.visible).map (vboxHeightSpec (stretch_height spec cs)))
    ∧ (0 < stretch_countV cs →
        stretch_height spec cs
          = (spec.height - spec.padding * 2 - spec.spacing * ((visible_count cs : ℚ) - 1)
              - total_preferred_height cs) / (stretch_countV cs : ℚ))
    ∧ (stretch_countV cs = 0 →
        VBox.layout { spec with height := H } cs = VBox.layout spec cs) := by
  intro spec cs W H
  refine ⟨?_, ?_, ?_, ?_, ?_, ?_, ?_, ?_⟩
  · rw [hboxLayout_eq, hboxPlace_widths]
  · rw [hboxLayout_eq, hboxPlace_xs]
  · intro hpos
    have h1 : 1 ≤ visible_count cs := le_trans hpos (stretch_le_visibleH cs)
    rw [stretch_width, if_pos hpos, available_width, total_spacingQ_eq spec.spacing cs h1]
  · intro hzero
    rw [hboxLayout_eq, hboxLayout_eq, hboxPlace_width_irrelevant]
    have hs1 : stretch_width { spec with width := W } cs = 0 := by
      rw [stretch_width, hzero]
      simp
    have hs2 : stretch_width spec cs = 0 := by
      rw [stretch_width, hzero]
      simp
    rw [hs1, hs2]
  · rw [vboxLayout_eq, vboxPlace_heights]
  · rw [vboxLayout_eq, vboxPlace_ys]
  · intro hpos
    have h1 : 1 ≤ visible_count cs := le_trans hpos (stretch_le_visibleV cs)
    rw [stretch_height, if_pos hpos, available_height, total_spacingQ_eq spec.spacing cs h1]
  · intro hzero
    rw [vboxLayout_eq, vboxLayout_eq, vboxPlace_height_irrelevant]
    have hs1 : stretch_height { spec with height := H } cs = 0 := by
      rw [stretch_height, hzero]
      simp
    have hs2 : stretch_height spec cs = 0 := by
      rw [stretch_height, hzero]
      simp
    rw [hs1, hs2]

/-- C6 witness: with only fixed-size children, widening the container does
not change the layout (the leftover is a trailing gap). -/
theorem C6_box_layout_witness :
    HBox.layout { specEx with width := 999 } csFixed = HBox.layout specEx csFixed :=
  (C6_box_layout specEx csFixed 999 0).2.2.2.1 (by decide)

/-! ## Claim C10 (corrected): parent/child link consistency -/

/-- Pointwise value of a heap update. -/
theorem updateHeap_get : ∀ (h : Heap) (i : Nat) (o : WObj) (j : Nat),
    updateHeap h i o j = if j = i then o else h j := by
  intro h i o j
  rfl

/-- The `mark_dirty` walk touches only dirty bits: parent pointers and
child lists are untouched at every id. -/
theorem markDirtyHeap_links : ∀ (fuel : Nat) (h : Heap) (i j : Nat),
    ((markDirtyHeap h fuel i) j).parent = (h j).parent
    ∧ ((markDirtyHeap h fuel i) j).children = (h j).children := by
  intro fuel
  induction fuel with
  | zero => intro h i j; exact ⟨rfl, rfl⟩
  | succ f ih =>
      intro h i j
      simp only [markDirtyHeap]
      rcases hp : (h i).parent with _ | p
      · refine ⟨?_, ?_⟩
        · show (updateHeap h i ⟨none, (h i).children, true⟩ j).parent = (h j).parent
          rw [updateHeap_get]
          by_cases hj : j = i
          · rw [if_pos hj, hj, hp]
          · rw [if_neg hj]
        · show (updateHeap h i ⟨none, (h i).children, true⟩ j).children = (h j).children
          rw [updateHeap_get]
          by_cases hj : j = i
          · rw [if_pos hj, hj]
          · rw [if_neg hj]
      · refine ⟨?_, ?_⟩
        · show (markDirtyHeap (updateHeap h i ⟨some p, (h i).children, true⟩) f p j).parent
              = (h j).parent
          rw [(ih _ p j).1, updateHeap_get]
          by_cases hj : j = i
          · rw [if_pos hj, hj, hp]
          · rw [if_neg hj]
        · show (markDirtyHeap (updateHeap h i ⟨some p, (h i).children, true⟩) f p j).children
              = (h j).children
          rw [(ih _ p j).2, updateHeap_get]
          by_cases hj : j = i
          · rw [if_pos hj, hj]
          · rw [if_neg hj]

/-- The `mark_dirty` walk never clears a dirty bit. -/
theorem markDirtyHeap_mono : ∀ (fuel : Nat) (h : Heap) (i j : Nat),
    (h j).dirty = true → ((markDirtyHeap h fuel i) j).dirty = true := by
  intro fuel
  induction fuel with
  | zero => intro h i j hd; exact hd
  | succ f ih =>
      intro h i j hd
      simp only [markDirtyHeap]
      rcases hp : (h i).parent with _ | p
      · show (updateHeap h i ⟨none, (h i).children, true⟩ j).dirty = true
        rw [updateHeap_get]
        by_cases hj : j = i
        · rw [if_pos hj]
        · rw [if_neg hj]; exact hd
      · show (markDirtyHeap (updateHeap h i ⟨some p, (h i).children, true⟩) f p j).dirty = true
        apply ih
        rw [updateHeap_get]
        by_cases hj : j = i
        · rw [if_pos hj]
        · rw [if_neg hj]; exact hd

/-- With any fuel at all, the walk sets the starting widget's dirty bit. -/
theorem markDirtyHeap_marks : ∀ (f : Nat) (h : Heap) (i : Nat),
    ((markDirtyHeap h (f + 1) i) i).dirty = true := by
  intro f h i
  simp only [markDirtyHeap]
  rcases hp : (h i).parent with _ | p
  · show (updateHeap h i ⟨none, (h i).children, true⟩ i).dirty = true
    rw [updateHeap_get, if_pos rfl]
  · show (markDirtyHeap (updateHeap h i ⟨some p, (h i).children, true⟩) f p i).dirty = true
    apply markDirtyHeap_mono
    rw [updateHeap_get, if_pos rfl]

/-- Link fields after `add_child` of a real, non-self child. -/
theorem add_child_fields : ∀ (h : Heap) (fuel w c : Nat), c ≠ w →
    (∀ j, ((add_child h fuel w (some c)) j).parent
        = if j = c then some w else (h j).parent)
    ∧ ∀ j, ((add_child h fuel w (some c)) j).children
        = if j = w then (h w).children ++ [c] else (h j).children := by
  intro h fuel w c hcw
  have hunf : add_child h fuel w (some c)
      = markDirtyHeap (updateHeap (updateHeap h c { h c with parent := some w }) w
          { (updateHeap h c { h c with parent := some w }) w with
            children := ((updateHeap h c { h c with parent := some w }) w).children ++ [c] })
          fuel w := by
    simp only [add_child, if_neg hcw]
  constructor
  · intro j
    rw [hunf, (markDirtyHeap_links fuel _ w j).1]
    by_cases hj : j = w <;> by_cases hjc : j = c <;>
      simp [hj, hjc, updateHeap_get, hcw, Ne.symm hcw]
  · intro j
    rw [hunf, (markDirtyHeap_links fuel _ w j).2]
    by_cases hj : j = w <;> by_cases hjc : j = c <;>
      simp [hj, hjc, updateHeap_get, hcw, Ne.symm hcw]

/-- Link fields after a matching `remove_child`. -/
theorem remove_child_fields : ∀ (h : Heap) (fuel w c : Nat), c ∈ (h w).children →
    (∀ j, ((remove_child h fuel w c) j).parent
        = if j = c then none else (h j).parent)
    ∧ ∀ j, ((remove_child h fuel w c) j).children
        = if j = w then (h w).children.erase c else (h j).children := by
  intro h fuel w c hmem
  have hunf : remove_child h fuel w c
      = markDirtyHeap (updateHeap (updateHeap h c { h c with parent := none }) w
          { (updateHeap h c { h c with parent := none }) w with
            children := ((updateHeap h c { h c with parent := none }) w).children.erase c })
          fuel w := by
    simp only [remove_child, if_pos hmem]
  constructor
  · intro j
    rw [hunf, (markDirtyHeap_links fuel _ w j).1]
    simp only [updateHeap_get]
    split_ifs <;> simp_all
  · intro j
    rw [hunf, (markDirtyHeap_links fuel _ w j).2]
    simp only [updateHeap_get]
    split_ifs <;> simp_all

/-- One `add_child` of a currently parentless, non-self child preserves the
link invariant. -/
theorem linkInv_add : ∀ (h : Heap) (fuel w c : Nat),
    LinkInv h → c ≠ w → (h c).parent = none →
    LinkInv (add_child h fuel w (some c)) := by
  intro h fuel w c hinv hcw hfree
  obtain ⟨hpar, hnod⟩ := hinv
  obtain ⟨hfp, hfc⟩ := add_child_fields h fuel w c hcw
  have hcnot : ∀ v, c ∉ (h v).children := by
    intro v hcv
    rw [hpar v c hcv] at hfree
    exact Option.noConfusion hfree
  constructor
  · intro v d hd
    rw [hfc v] at hd
    rw [hfp d]
    by_cases hv : v = w
    · subst hv
      rw [if_pos rfl] at hd
      rcases List.mem_append.mp hd with hold | hnew
      · have hdc : d ≠ c := fun hdc => hcnot v (hdc ▸ hold)
        rw [if_neg hdc]
        exact hpar v d hold
      · have hdc : d = c := by simpa using hnew
        subst hdc
        rw [if_pos rfl]
    · rw [if_neg hv] at hd
      have hdc : d ≠ c := fun hdc => hcnot v (hdc ▸ hd)
      rw [if_neg hdc]
      exact hpar v d hd
  · intro v
    rw [hfc v]
    by_cases hv : v = w
    · subst hv
      rw [if_pos rfl, List.nodup_append]
      refine ⟨hnod v, List.nodup_singleton c, ?_⟩
      intro a ha hb
      have hac : a = c := by simpa using hb
      subst hac
      exact hcnot v ha
    · rw [if_neg hv]
      exact hnod v

/-- Any `remove_child` preserves the link invariant. -/
theorem linkInv_rem : ∀ (h : Heap) (fuel w c : Nat),
    LinkInv h → LinkInv (remove_child h fuel w c) := by
  intro h fuel w c hinv
  by_cases hmem : c ∈ (h w).children
  · obtain ⟨hpar, hnod⟩ := hinv
    obtain ⟨hfp, hfc⟩ := remove_child_fields h fuel w c hmem
    constructor
    · intro v d hd
      rw [hfc v] at hd
      rw [hfp d]
      by_cases hv : v = w
      · subst hv
        rw [if_pos rfl] at hd
        have hd' := (hnod v).mem_erase_iff.mp hd
        rw [if_neg hd'.1]
        exact hpar v d hd'.2
      · rw [if_neg hv] at hd
        have hdc : d ≠ c := by
          intro hdc
          subst hdc
          have h1 := hpar v d hd
          have h2 := hpar w d hmem
          rw [h1] at h2
          exact hv (Option.some.inj h2)
        rw [if_neg hdc]
        exact hpar v d hd
    · intro v
      rw [hfc v]
      by_cases hv : v = w
      · subst hv
        rw [if_pos rfl]
        exact (hnod v).erase c
      · rw [if_neg hv]
        exact hnod v
  · rw [remove_child, if_neg hmem]
    exact hinv

/-- Invariant preservation over a whole safe operation sequence. -/
theorem linkInv_ops : ∀ (fuel : Nat) (h : Heap) (ops : List COp),
    SafeOps fuel h ops → LinkInv h → LinkInv (applyOps fuel h ops) := by
  intro fuel h ops hsafe
  induction hsafe with
  | nil h => intro hinv; simpa [applyOps] using hinv
  | consAdd h w c ops hc _ ih =>
      intro hinv
      have hstep : LinkInv (applyOp fuel h (.add w c)) := by
        cases c with
        | none => simpa [applyOp, add_child] using hinv
        | some c' =>
            by_cases hcw : c' = w
            · simpa [applyOp, add_child, hcw] using hinv
            · exact linkInv_add h fuel w c' hinv hcw (hc c' rfl hcw)
      simpa [applyOps] using ih hstep
  | consRem h w c ops _ ih =>
      intro hinv
      simpa [applyOps] using ih (linkInv_rem h fuel w c hinv)

/-- C10 counterexample: after `w0.add_child(c2); w1.add_child(c2)` (legal
calls on distinct widgets), widget `2` still sits in widget `0`'s child
list while its parent pointer names widget `1` — so it is not the case
that every child's parent pointer refers to the widget whose child list
contains it. -/
theorem C10_two_parents_counterexample :
    2 ∈ (hTwoParents 0).children ∧ (hTwoParents 2).parent ≠ some 0 := by
  decide

/-- C10 (amended): `add_child` with a null child or the widget itself is a
complete no-op; otherwise it sets the child's parent pointer, appends the
child at the end of the list, and marks the widget dirty.  `remove_child`
with a matching pointer erases its first occurrence, nulls that child's
parent pointer, and marks the widget dirty; with no match it changes
nothing.  The claimed invariant — every listed child's parent pointer
names the listing widget — is preserved by any sequence of these
operations in which each real, non-self `add_child` argument is parentless
when added (it fails otherwise, see the counterexample). -/
theorem C10_parent_child_links : ∀ (h : Heap) (fuel w c : Nat) (ops : List COp),
    (add_child h fuel w none = h)
    ∧ (add_child h fuel w (some w) = h)
    ∧ (c ≠ w →
        ((add_child h fuel w (some c)) c).parent = some w
        ∧ ((add_child h fuel w (some c)) w).children = (h w).children ++ [c]
        ∧ (1 ≤ fuel → ((add_child h fuel w (some c)) w).dirty = true))
    ∧ (c ∈ (h w).children →
        ((remove_child h fuel w c) w).children = (h w).children.erase c
        ∧ ((remove_child h fuel w c) c).parent = none
        ∧ (1 ≤ fuel → ((remove_child h fuel w c) w).dirty = true))
    ∧ (c ∉ (h w).children → remove_child h fuel w c = h)
    ∧ (LinkInv h → SafeOps fuel h ops → LinkInv (applyOps fuel h ops)) := by
  intro h fuel w c ops
  refine ⟨rfl, by simp [add_child], ?_, ?_, ?_,
    fun hinv hsafe => linkInv_ops fuel h ops hsafe hinv⟩
  · intro hcw
    obtain ⟨hfp, hfc⟩ := add_child_fields h fuel w c hcw
    refine ⟨by rw [hfp c, if_pos rfl], by rw [hfc w, if_pos rfl], ?_⟩
    intro hfuel
    obtain ⟨f, rfl⟩ : ∃ f, fuel = f + 1 :=
      ⟨fuel - 1, (Nat.succ_pred_eq_of_pos hfuel).symm⟩
    have hunf : add_child h (f + 1) w (some c)
        = markDirtyHeap (updateHeap (updateHeap h c { h c with parent := some w }) w
            { (updateHeap h c { h c with parent := some w }) w with
              children := ((updateHeap h c { h c with parent := some w }) w).children
                ++ [c] }) (f + 1) w := by
      simp only [add_child, if_neg hcw]
    rw [hunf]
    exact markDirtyHeap_marks f _ w
  · intro hmem
    obtain ⟨hfp, hfc⟩ := remove_child_fields h fuel w c hmem
    refine ⟨by rw [hfc w, if_pos rfl], by rw [hfp c, if_pos rfl], ?_⟩
    intro hfuel
    obtain ⟨f, rfl⟩ : ∃ f, fuel = f + 1 :=
      ⟨fuel - 1, (Nat.succ_pred_eq_of_pos hfuel).symm⟩
    have hunf : remove_child h (f + 1) w c
        = markDirtyHeap (updateHeap (updateHeap h c { h c with parent := none }) w
            { (updateHeap h c { h c with parent := none }) w with
              children := ((updateHeap h c { h c with parent := none }) w).children.erase
                c }) (f + 1) w := by
      simp only [remove_child, if_pos hmem]
    rw [hunf]
    exact markDirtyHeap_marks f _ w
  · intro hnot
    rw [remove_child, if_neg hnot]

/-- C10 witness: from the empty heap, one safe `add_child` keeps the link
invariant. -/
theorem C10_parent_child_links_witness :
    LinkInv (applyOps 1 emptyHeap [COp.add 0 (some 2)]) :=
  (C10_parent_child_links emptyHeap 1 0 2 [COp.add 0 (some 2)]).2.2.2.2.2
    ⟨fun _ c hc => absurd hc (List.not_mem_nil c), fun _ => List.nodup_nil⟩
    (SafeOps.consAdd emptyHeap 0 (some 2) []
      (fun c' hc _ => by injection hc with hh; rw [← hh]; rfl)
      (SafeOps.nil _))

end ZWidget
